import Mathlib

/-!
Verification development for the udpmask UDP relay (src/udpmask.c).

The session-multiplexing core is embedded shallowly:
- the fixed array `static struct um_sockmap map[UM_MAX_CLIENT]` becomes a
  `List um_sockmap` (its length is the compile-time capacity);
- file descriptors and `time_t` values become `Int`;
- the `fd_set` of registered readable handles becomes a `Finset Int`;
- each call to `time(NULL)` becomes an explicit oracle parameter;
- the external `transform` function becomes a function parameter;
- observable side effects of the event loop (socket creation, reaping,
  closes, sends) are recorded in an explicit action trace.

The derived `sock_fd_max` bookkeeping (an upper bound needed only by
`select`) and the logging calls are side effects outside the claims and
are not modelled.
-/

/-- Modelled from the spec: the sentinel `lastUse` value `TIME_INVALID`
(the "created, never refreshed" marker, distinct from any real
timestamp), defined in the missing header udpmask.h; `time()` returns it
on failure, so it is the customary `(time_t)(-1)`. -/
def TIME_INVALID : Int := -1

/-- struct sockaddr_in, restricted to the fields the code reads:
`sin_family` (sa_family_t, 16-bit), `sin_port` (in_port_t, 16-bit,
network byte order as stored), `sin_addr` (the 32-bit `s_addr`). -/
structure sockaddr_in where
  sin_family : Nat
  sin_port : Nat
  sin_addr : Nat
deriving DecidableEq, Repr

/-- Field ranges imposed by the C types (uint16 / uint16 / uint32). -/
def sockaddr_in.wf (a : sockaddr_in) : Prop :=
  a.sin_family < 2 ^ 16 ∧ a.sin_port < 2 ^ 16 ∧ a.sin_addr < 2 ^ 32

instance (a : sockaddr_in) : Decidable a.wf := by
  unfold sockaddr_in.wf; infer_instance

/-- One slot of `struct um_sockmap map[UM_MAX_CLIENT]`. The C field
`from` is a Lean keyword, hence `from_`. -/
structure um_sockmap where
  in_use : Bool
  sock : Int
  last_use : Int
  from_ : sockaddr_in
deriving DecidableEq, Repr

/-- The zero-initialised slot produced by `memset(map, 0, sizeof(map))`. -/
def um_sockmap.empty : um_sockmap :=
  ⟨false, 0, 0, ⟨0, 0, 0⟩⟩

/-- Conversion of a C unsigned value to a 32-bit signed int
(the `(int) in_addr_cmp` cast in sockaddr_in_cmp). -/
def toInt32 (n : Nat) : Int :=
  if n % 2 ^ 32 < 2 ^ 31 then ((n % 2 ^ 32 : Nat) : Int)
  else ((n % 2 ^ 32 : Nat) : Int) - 2 ^ 32

/-- sockaddr_in_cmp from udpmask.c: compares family, then port, then
numeric address. The family and port subtractions happen in `int` and
are exact; the `s_addr` subtraction happens in `uint32_t` (wrapping),
is widened to `long`, and the nonzero result is cast back to `int`. -/
def sockaddr_in_cmp (a b : sockaddr_in) : Int :=
  let af_cmp : Int := (a.sin_family : Int) - (b.sin_family : Int)
  if af_cmp ≠ 0 then af_cmp
  else
    let port_cmp : Int := (a.sin_port : Int) - (b.sin_port : Int)
    if port_cmp ≠ 0 then port_cmp
    else
      let in_addr_cmp : Nat := (a.sin_addr + 2 ^ 32 - b.sin_addr) % 2 ^ 32
      if in_addr_cmp ≠ 0 then toInt32 in_addr_cmp
      else 0

/-- um_sockmap_ins from udpmask.c: scan for the first slot with
`!in_use`, fill it (`in_use = 1`, the socket, `last_use = TIME_INVALID`,
the address) and return its index; return failure (C: -1) when every
slot is in use, leaving the table unchanged. -/
def um_sockmap_ins (sock : Int) (addr : sockaddr_in) :
    List um_sockmap → Option (Nat × List um_sockmap)
  | [] => none
  | s :: rest =>
    if s.in_use then
      match um_sockmap_ins sock addr rest with
      | none => none
      | some (i, rest') => some (i + 1, s :: rest')
    else
      some (0, ⟨true, sock, TIME_INVALID, addr⟩ :: rest)

/-- The slot-selection predicate of um_sockmap_clean:
`map[i].in_use && (map[i].last_use == TIME_INVALID ||
 time_val - map[i].last_use >= timeout)`. -/
def purgeable (timeout time_val : Int) (s : um_sockmap) : Prop :=
  s.in_use = true ∧ (s.last_use = TIME_INVALID ∨ time_val - s.last_use ≥ timeout)

instance (timeout time_val : Int) (s : um_sockmap) :
    Decidable (purgeable timeout time_val s) := by
  unfold purgeable; infer_instance

/-- Result of one um_sockmap_clean call: the purged flag, the updated
table, the updated readiness set, and the file descriptors closed (in
table order). -/
structure CleanResult where
  purged : Bool
  map : List um_sockmap
  active_set : Finset Int
  closed : List Int
deriving DecidableEq

/-- The scan loop of um_sockmap_clean: each purgeable slot has `in_use`
cleared (its other fields are not written), its socket closed and
removed from the readiness set (`FD_CLR`), and the purged flag set. -/
def um_sockmap_clean_go (timeout time_val : Int) :
    List um_sockmap → Finset Int → (Bool × List um_sockmap × Finset Int × List Int)
  | [], as => (false, [], as, [])
  | s :: rest, as =>
    if purgeable timeout time_val s then
      let r := um_sockmap_clean_go timeout time_val rest (as.erase s.sock)
      (true, { s with in_use := false } :: r.2.1, r.2.2.1, s.sock :: r.2.2.2)
    else
      let r := um_sockmap_clean_go timeout time_val rest as
      (r.1, s :: r.2.1, r.2.2.1, r.2.2.2)

/-- um_sockmap_clean from udpmask.c: with a non-positive timeout,
return immediately without touching anything; otherwise run the scan
loop at the current time. `time_val` is the value this call reads from
`time(NULL)`. -/
def um_sockmap_clean (timeout time_val : Int) (map : List um_sockmap)
    (active_set : Finset Int) : CleanResult :=
  if timeout ≤ 0 then ⟨false, map, active_set, []⟩
  else
    let r := um_sockmap_clean_go timeout time_val map active_set
    ⟨r.1, r.2.1, r.2.2.1, r.2.2.2⟩

/-- The session-lookup scan in start() (udpmask.c lines 213-219): the
first index whose slot is in use and whose stored address compares
equal to the received address under sockaddr_in_cmp. -/
def um_lookup (addr : sockaddr_in) : List um_sockmap → Option Nat
  | [] => none
  | s :: rest =>
    if s.in_use ∧ sockaddr_in_cmp addr s.from_ = 0 then some 0
    else (um_lookup addr rest).map (· + 1)

/-- Replace the slot at an index, leaving the rest of the table alone
(in-place array write `map[idx] = ...`). -/
def setSlot (f : um_sockmap → um_sockmap) : Nat → List um_sockmap → List um_sockmap
  | _, [] => []
  | 0, s :: rest => f s :: rest
  | n + 1, s :: rest => s :: setSlot f n rest

/-- UPDATE_LAST_USE from udpmask.c: read `time(NULL)` (the `time_val`
oracle parameter); if it is not TIME_INVALID, store it in
`map[idx].last_use`; otherwise write nothing. -/
def UPDATE_LAST_USE (time_val : Int) (idx : Nat) (map : List um_sockmap) :
    List um_sockmap :=
  if time_val ≠ TIME_INVALID then
    setSlot (fun s => { s with last_use := time_val }) idx map
  else map

/-- enum um_mode from udpmask.h (referenced by start()). -/
inductive um_mode where
  | UM_MODE_NONE
  | UM_MODE_SERVER
  | UM_MODE_CLIENT
deriving DecidableEq, Repr

/-- Observable side effects of one pass through the body of the event
loop in start(), in program order: a successful `NEW_SOCK()`, a call to
um_sockmap_clean (the reap), `close` of a file descriptor, `FD_SET`
registration, `connect` of the new upstream socket, `send` on a session
socket toward the remote, and `sendto` on the listening socket back to
a client address. -/
inductive LoopAct where
  | sockCreate (fd : Int)
  | reap
  | close (fd : Int)
  | fdSet (fd : Int)
  | connect (fd : Int)
  | send (fd : Int) (data : List Nat)
  | sendto (addr : sockaddr_in) (data : List Nat)
deriving DecidableEq, Repr

/-- The multiplexer state mutated by start(): the session table and the
registered readiness set `active_fd_set` (which also holds the
listening socket). -/
structure MuxState where
  map : List um_sockmap
  active_set : Finset Int
deriving DecidableEq

/-- The per-iteration oracle inputs of the event loop: the termination
flag sampled at the top, the select() result, whether the listening
socket is ready, the datagram received on it (`none` models
`recvfrom` returning <= 0), the fd a `NEW_SOCK()` call would produce
(negative models failure), the values successive `time(NULL)` calls
yield, the readiness snapshot `read_fd_set` as a predicate on session
fds, and the datagram each ready session socket yields (`none` models
`recv` returning <= 0). -/
structure IterIn where
  termFlag : Bool
  selectRet : Int
  bindReady : Bool
  recvRet : Option (List Nat × sockaddr_in)
  newSock : Int
  tClean : Int
  tTouch : Int
  ready : Int → Bool
  rdata : Nat → Option (List Nat)
  tDrain : Nat → Int
  tCleanEnd : Int

/-- The common tail of the listening-socket branch (udpmask.c lines
252-257): with a valid `sock_idx`, transform the datagram in place,
send it on `map[sock_idx].sock`, and refresh that slot's `last_use`. -/
def send_common (tf : um_mode → List Nat → List Nat) (mode : um_mode)
    (tTouch : Int) (st : MuxState) (tr : List LoopAct) (trigged : Bool)
    (idx : Nat) (buf : List Nat) : MuxState × List LoopAct × Bool :=
  match st.map.get? idx with
  | some s =>
    ({ st with map := UPDATE_LAST_USE tTouch idx st.map },
     tr ++ [LoopAct.send s.sock (tf mode buf)], trigged)
  | none => (st, tr, trigged)

/-- The listening-socket branch of one loop iteration (udpmask.c lines
204-258): receive a datagram with its source address, look the address
up in the table; on a miss, create a new upstream socket, and if that
succeeded, reap, insert, register and connect the new socket; in every
case with a valid slot, transform-and-forward and refresh `last_use`.
Returns the new state, the action trace, and `clean_up_trigged`. -/
def dispatch_listen (tf : um_mode → List Nat → List Nat) (mode : um_mode)
    (timeout tClean tTouch : Int) (recvRet : Option (List Nat × sockaddr_in))
    (newSock : Int) (st : MuxState) : MuxState × List LoopAct × Bool :=
  match recvRet with
  | none => (st, [], false)
  | some (buf, recv_addr) =>
    match um_lookup recv_addr st.map with
    | some i => send_common tf mode tTouch st [] false i buf
    | none =>
      if newSock < 0 then (st, [], false)
      else
        let cl := um_sockmap_clean timeout tClean st.map st.active_set
        let preTr := LoopAct.sockCreate newSock :: LoopAct.reap ::
          cl.closed.map LoopAct.close
        match um_sockmap_ins newSock recv_addr cl.map with
        | some (i, m2) =>
          send_common tf mode tTouch
            ⟨m2, insert newSock cl.active_set⟩
            (preTr ++ [LoopAct.fdSet newSock, LoopAct.connect newSock]) true i buf
        | none => (⟨cl.map, cl.active_set⟩, preTr, true)

/-- The session-socket drain loop (udpmask.c lines 261-276), scanning
slots in table order from index `i`: for each in-use slot whose socket
is in the ready snapshot, receive one datagram; when the receive
yields data, refresh `last_use`, transform, and send the result on the
listening socket to the slot's stored client address. -/
def drain_go (tf : um_mode → List Nat → List Nat) (mode : um_mode)
    (ready : Int → Bool) (rdata : Nat → Option (List Nat))
    (tDrain : Nat → Int) : Nat → List um_sockmap → List um_sockmap × List LoopAct
  | _, [] => ([], [])
  | i, s :: rest =>
    if s.in_use ∧ ready s.sock then
      match rdata i with
      | some buf =>
        let s' := if tDrain i ≠ TIME_INVALID then { s with last_use := tDrain i } else s
        let r := drain_go tf mode ready rdata tDrain (i + 1) rest
        (s' :: r.1, LoopAct.sendto s.from_ (tf mode buf) :: r.2)
      | none =>
        let r := drain_go tf mode ready rdata tDrain (i + 1) rest
        (s :: r.1, r.2)
    else
      let r := drain_go tf mode ready rdata tDrain (i + 1) rest
      (s :: r.1, r.2)

/-- One full iteration of the while loop in start() (udpmask.c lines
192-281), after the termination flag was seen clear: a select() result
of zero or less restarts the loop with no dispatch and no reap;
otherwise the listening socket is dispatched (if ready), the session
sockets are drained in table order, and if the dispatch did not already
reap, a reap runs at the end. -/
def step_iter (tf : um_mode → List Nat → List Nat) (mode : um_mode)
    (timeout : Int) (inp : IterIn) (st : MuxState) : MuxState × List LoopAct :=
  if inp.selectRet ≤ 0 then (st, [])
  else
    let d :=
      if inp.bindReady then
        dispatch_listen tf mode timeout inp.tClean inp.tTouch inp.recvRet inp.newSock st
      else (st, [], false)
    let dr := drain_go tf mode inp.ready inp.rdata inp.tDrain 0 d.1.map
    let st2 : MuxState := ⟨dr.1, d.1.active_set⟩
    if d.2.2 then (st2, d.2.1 ++ dr.2)
    else
      let cl := um_sockmap_clean timeout inp.tCleanEnd st2.map st2.active_set
      (⟨cl.map, cl.active_set⟩,
       d.2.1 ++ dr.2 ++ LoopAct.reap :: cl.closed.map LoopAct.close)

/-- The shutdown sweep after the while loop exits (udpmask.c lines
284-289): every in-use slot has its socket closed and `in_use`
cleared. Returns the final table and the closed fds in table order. -/
def shutdown_cleanup : List um_sockmap → List um_sockmap × List Int
  | [] => ([], [])
  | s :: rest =>
    let r := shutdown_cleanup rest
    if s.in_use then ({ s with in_use := false } :: r.1, s.sock :: r.2)
    else (s :: r.1, r.2)

/-- The while loop of start() driven by a list of per-iteration oracle
inputs: the termination flag is observed at the top of each iteration;
when it is set the shutdown sweep runs and start() returns 0. When the
oracle list is exhausted with the flag never seen set, the result code
is `none` (the loop is still running). -/
def start_loop (tf : um_mode → List Nat → List Nat) (mode : um_mode)
    (timeout : Int) : List IterIn → MuxState → MuxState × Option Int × List LoopAct
  | [], st => (st, none, [])
  | inp :: rest, st =>
    if inp.termFlag then
      let c := shutdown_cleanup st.map
      (⟨c.1, st.active_set⟩, some 0, c.2.map LoopAct.close)
    else
      let r := step_iter tf mode timeout inp st
      let t := start_loop tf mode timeout rest r.1
      (t.1, t.2.1, r.2 ++ t.2.2)

/-- Sequential insertion of a batch of (socket, address) pairs through
um_sockmap_ins, recording each call's result. -/
def insertAll : List (Int × sockaddr_in) → List um_sockmap →
    List (Option Nat) × List um_sockmap
  | [], m => ([], m)
  | (s, a) :: ps, m =>
    match um_sockmap_ins s a m with
    | none => let r := insertAll ps m; (none :: r.1, r.2)
    | some (i, m2) => let r := insertAll ps m2; (some i :: r.1, r.2)

/-- The pairwise session-table invariant: any two slots that are both
in use hold distinct client addresses and distinct socket handles. -/
def slots_ok (a b : um_sockmap) : Prop :=
  a.in_use = true → b.in_use = true → a.from_ ≠ b.from_ ∧ a.sock ≠ b.sock

instance (a b : um_sockmap) : Decidable (slots_ok a b) := by
  unfold slots_ok; infer_instance

/-- The session-table invariant of the spec (§3): at most one active
session per client address, and distinct active sessions own distinct
sockets. -/
def SessInv (m : List um_sockmap) : Prop := m.Pairwise slots_ok

instance (m : List um_sockmap) : Decidable (SessInv m) := by
  unfold SessInv; infer_instance

/-- The sockets of the in-use slots of a table. -/
def activeSocks (m : List um_sockmap) : List Int :=
  (m.filter (·.in_use)).map (·.sock)

/-- The slot um_sockmap_ins writes for a (socket, address) pair. -/
def mkSlot (p : Int × sockaddr_in) : um_sockmap :=
  ⟨true, p.1, TIME_INVALID, p.2⟩

/-- The effect of um_sockmap_clean on one slot: a purgeable slot has
in_use cleared (nothing else written), any other slot is untouched. -/
def purge_mark (timeout tv : Int) (s : um_sockmap) : um_sockmap :=
  if purgeable timeout tv s then { s with in_use := false } else s

/-- Two slots agreeing on the fields relevant to the table invariant
(in_use, sock, from_); last_use may differ. -/
def same_key (a b : um_sockmap) : Prop :=
  a.in_use = b.in_use ∧ a.sock = b.sock ∧ a.from_ = b.from_

/-- A slot whose liveness only shrank relative to another (same sock
and address; in use only if the other was). -/
def key_le (a' a : um_sockmap) : Prop :=
  (a'.in_use = true → a.in_use = true) ∧ a'.sock = a.sock ∧ a'.from_ = a.from_

/-- Whether, scanning a trace left to right, a reap is seen before any
socket creation (true iff the first of the two kinds of action to
occur is a reap). -/
def reap_precedes_create : List LoopAct → Bool
  | [] => false
  | LoopAct.reap :: _ => true
  | LoopAct.sockCreate _ :: _ => false
  | _ :: tr => reap_precedes_create tr

/-- C2 counterexample: in the new-address path the code calls
NEW_SOCK() first and um_sockmap_clean only afterwards, so at this
concrete state the dispatch trace opens with the socket creation, not
the reap — refuting the claim that the reaper runs before the new
upstream socket is created. -/

theorem sockaddr_in_cmp_zero_iff (a b : sockaddr_in)
    (ha : a.sin_addr < 2 ^ 32) (hb : b.sin_addr < 2 ^ 32) :
    sockaddr_in_cmp a b = 0 ↔
      a.sin_family = b.sin_family ∧ a.sin_port = b.sin_port ∧
      a.sin_addr = b.sin_addr := by
  simp only [sockaddr_in_cmp, toInt32]
  split_ifs <;> exact ⟨fun h => by omega, fun h => by omega⟩

theorem sockaddr_in_cmp_self (a : sockaddr_in) : sockaddr_in_cmp a a = 0 := by
  simp [sockaddr_in_cmp]

theorem um_lookup_some (addr : sockaddr_in) :
    ∀ (m : List um_sockmap) (i : Nat), um_lookup addr m = some i →
      ∃ s, m.get? i = some s ∧ s.in_use = true ∧ sockaddr_in_cmp addr s.from_ = 0 ∧
        ∀ j t, j < i → m.get? j = some t →
          ¬(t.in_use = true ∧ sockaddr_in_cmp addr t.from_ = 0)
  | [], i => by simp [um_lookup]
  | s :: rest, i => by
    simp only [um_lookup]
    split_ifs with h
    · intro hi
      injection hi with hi
      subst hi
      exact ⟨s, rfl, h.1, h.2, fun j t hj => by omega⟩
    · cases hrec : um_lookup addr rest with
      | none => simp [hrec]
      | some k =>
        intro hi
        replace hi : k + 1 = i := by simpa using hi
        subst hi
        obtain ⟨t, ht, htu, htc, hfirst⟩ := um_lookup_some addr rest k hrec
        refine ⟨t, ht, htu, htc, ?_⟩
        intro j u hj hu
        match j, hu with
        | 0, hu =>
          injection hu with hu
          subst hu
          exact fun hc => h hc
        | j + 1, hu =>
          exact hfirst j u (by omega) hu

theorem um_lookup_none (addr : sockaddr_in) :
    ∀ (m : List um_sockmap), um_lookup addr m = none ↔
      ∀ s ∈ m, ¬(s.in_use = true ∧ sockaddr_in_cmp addr s.from_ = 0)
  | [] => by simp [um_lookup]
  | s :: rest => by
    simp only [um_lookup]
    split_ifs with h
    · constructor
      · intro hc
        exact absurd hc (by simp)
      · intro hc
        exact absurd h (hc s (by simp))
    · cases hrec : um_lookup addr rest with
      | none =>
        simp only [Option.map_none', true_iff]
        intro t ht
        rcases List.mem_cons.mp ht with h1 | h2
        · subst h1; exact h
        · exact (um_lookup_none addr rest).mp hrec t h2
      | some k =>
        constructor
        · intro hc
          exact absurd hc (by simp)
        · intro hc
          obtain ⟨t, ht, htu, htc, _⟩ := um_lookup_some addr rest k hrec
          exact absurd ⟨htu, htc⟩
            (hc t (List.mem_cons_of_mem s (List.get?_mem ht)))

/-- C5: um_lookup returns the lowest-indexed active slot whose stored
address agrees with the queried address exactly on address family,
port, and numeric IP address; it returns NotFound (none) iff no active
slot matches on all three components; and sockaddr_in_cmp reports two
addresses equal iff all three components are equal (no wildcard or
prefix matching). -/
theorem C5_lookup_exact_match (addr : sockaddr_in) (m : List um_sockmap)
    (ha : addr.wf) (hm : ∀ s ∈ m, s.in_use = true → s.from_.wf) :
    (∀ b, b.wf →
      (sockaddr_in_cmp addr b = 0 ↔
        addr.sin_family = b.sin_family ∧ addr.sin_port = b.sin_port ∧
        addr.sin_addr = b.sin_addr)) ∧
    (∀ i, um_lookup addr m = some i →
      ∃ s, m.get? i = some s ∧ s.in_use = true ∧
        addr.sin_family = s.from_.sin_family ∧
        addr.sin_port = s.from_.sin_port ∧
        addr.sin_addr = s.from_.sin_addr ∧
        ∀ j t, j < i → m.get? j = some t →
          ¬(t.in_use = true ∧ addr.sin_family = t.from_.sin_family ∧
            addr.sin_port = t.from_.sin_port ∧
            addr.sin_addr = t.from_.sin_addr)) ∧
    (um_lookup addr m = none ↔
      ∀ s ∈ m, ¬(s.in_use = true ∧ addr.sin_family = s.from_.sin_family ∧
        addr.sin_port = s.from_.sin_port ∧
        addr.sin_addr = s.from_.sin_addr)) := by
  have key : ∀ t ∈ m, t.in_use = true →
      (sockaddr_in_cmp addr t.from_ = 0 ↔
        addr.sin_family = t.from_.sin_family ∧
        addr.sin_port = t.from_.sin_port ∧
        addr.sin_addr = t.from_.sin_addr) := by
    intro t htm htu
    exact sockaddr_in_cmp_zero_iff addr t.from_ ha.2.2 ((hm t htm htu).2.2)
  refine ⟨?_, ?_, ?_⟩
  · intro b hb
    exact sockaddr_in_cmp_zero_iff addr b ha.2.2 hb.2.2
  · intro i hi
    obtain ⟨s, hs, hsu, hsc, hfirst⟩ := um_lookup_some addr m i hi
    have hsm : s ∈ m := List.get?_mem hs
    obtain ⟨h1, h2, h3⟩ := (key s hsm hsu).mp hsc
    refine ⟨s, hs, hsu, h1, h2, h3, ?_⟩
    intro j t hj ht hc
    exact hfirst j t hj ht ⟨hc.1, (key t (List.get?_mem ht) hc.1).mpr hc.2⟩
  · rw [um_lookup_none]
    constructor
    · intro hnone t htm hc
      exact hnone t htm ⟨hc.1, (key t htm hc.1).mpr hc.2⟩
    · intro hnone t htm hc
      exact hnone t htm ⟨hc.1, (key t htm hc.1).mp hc.2⟩

/-- Witness for C5 at a concrete query and table. -/
theorem C5_lookup_exact_match_witness :
    um_lookup ⟨2, 80, 5⟩ [(⟨true, 3, 0, ⟨2, 80, 9⟩⟩ : um_sockmap)] = none ↔
      ∀ s ∈ [(⟨true, 3, 0, ⟨2, 80, 9⟩⟩ : um_sockmap)],
        ¬(s.in_use = true ∧
          (⟨2, 80, 5⟩ : sockaddr_in).sin_family = s.from_.sin_family ∧
          (⟨2, 80, 5⟩ : sockaddr_in).sin_port = s.from_.sin_port ∧
          (⟨2, 80, 5⟩ : sockaddr_in).sin_addr = s.from_.sin_addr) :=
  (C5_lookup_exact_match ⟨2, 80, 5⟩ [⟨true, 3, 0, ⟨2, 80, 9⟩⟩]
    (by decide) (by decide)).2.2

theorem setSlot_get_self (f : um_sockmap → um_sockmap) :
    ∀ (m : List um_sockmap) (idx : Nat) (s : um_sockmap),
      m.get? idx = some s → (setSlot f idx m).get? idx = some (f s)
  | [], idx, s => by simp [setSlot]
  | t :: rest, 0, s => by
    intro h
    injection h with h
    subst h
    rfl
  | t :: rest, idx + 1, s => by
    intro h
    exact setSlot_get_self f rest idx s h

theorem setSlot_get_other (f : um_sockmap → um_sockmap) :
    ∀ (m : List um_sockmap) (idx j : Nat), j ≠ idx →
      (setSlot f idx m).get? j = m.get? j
  | [], idx, j => by simp [setSlot]
  | t :: rest, 0, 0 => by omega
  | t :: rest, 0, j + 1 => by intro; rfl
  | t :: rest, idx + 1, 0 => by intro; rfl
  | t :: rest, idx + 1, j + 1 => by
    intro h
    exact setSlot_get_other f rest idx j (by omega)

/-- C8: UPDATE_LAST_USE sets the indexed slot's last_use to the value
the time source yields when that value is valid, leaves last_use
unchanged when the time source returns the invalid sentinel, and
modifies no other field of any slot in either case. -/
theorem C8_touch (time_val : Int) (idx : Nat) (m : List um_sockmap) :
    (time_val = TIME_INVALID → UPDATE_LAST_USE time_val idx m = m) ∧
    (time_val ≠ TIME_INVALID →
      (∀ s, m.get? idx = some s →
        (UPDATE_LAST_USE time_val idx m).get? idx =
          some ⟨s.in_use, s.sock, time_val, s.from_⟩) ∧
      (∀ j, j ≠ idx → (UPDATE_LAST_USE time_val idx m).get? j = m.get? j)) := by
  constructor
  · intro h
    simp [UPDATE_LAST_USE, h]
  · intro h
    constructor
    · intro s hs
      simp only [UPDATE_LAST_USE, if_pos h]
      exact setSlot_get_self _ m idx s hs
    · intro j hj
      simp only [UPDATE_LAST_USE, if_pos h]
      exact setSlot_get_other _ m idx j hj

/-- Witness for C8 at a concrete time, index, and table. -/
theorem C8_touch_witness :
    (UPDATE_LAST_USE 100 0 [(⟨true, 3, 7, ⟨2, 80, 9⟩⟩ : um_sockmap)]).get? 0 =
      some ⟨true, 3, 100, ⟨2, 80, 9⟩⟩ :=
  ((C8_touch 100 0 [⟨true, 3, 7, ⟨2, 80, 9⟩⟩]).2 (by decide)).1
    ⟨true, 3, 7, ⟨2, 80, 9⟩⟩ rfl

theorem um_sockmap_ins_none (sock : Int) (addr : sockaddr_in) :
    ∀ (m : List um_sockmap),
      um_sockmap_ins sock addr m = none ↔ ∀ s ∈ m, s.in_use = true
  | [] => by simp [um_sockmap_ins]
  | s :: rest => by
    simp only [um_sockmap_ins]
    split_ifs with h
    · cases hrec : um_sockmap_ins sock addr rest with
      | none =>
        simp only [true_iff]
        intro t ht
        rcases List.mem_cons.mp ht with h1 | h2
        · subst h1; exact h
        · exact (um_sockmap_ins_none sock addr rest).mp hrec t h2
      | some p =>
        constructor
        · intro hc
          exact absurd hc (by simp)
        · intro hall
          have : um_sockmap_ins sock addr rest = none :=
            (um_sockmap_ins_none sock addr rest).mpr
              (fun t ht => hall t (List.mem_cons_of_mem s ht))
          rw [this] at hrec
          exact absurd hrec (by simp)
    · constructor
      · intro hc
        exact absurd hc (by simp)
      · intro hall
        exact absurd (hall s (by simp)) (by simpa using h)

theorem um_sockmap_ins_some (sock : Int) (addr : sockaddr_in) :
    ∀ (m : List um_sockmap) (i : Nat) (m2 : List um_sockmap),
      um_sockmap_ins sock addr m = some (i, m2) →
      (∃ s, m.get? i = some s ∧ s.in_use = false) ∧
      (∀ j t, j < i → m.get? j = some t → t.in_use = true) ∧
      m2.get? i = some ⟨true, sock, TIME_INVALID, addr⟩ ∧
      (∀ j, j ≠ i → m2.get? j = m.get? j)
  | [], i, m2 => by simp [um_sockmap_ins]
  | s :: rest, i, m2 => by
    simp only [um_sockmap_ins]
    split_ifs with h
    · cases hrec : um_sockmap_ins sock addr rest with
      | none => simp [hrec]
      | some p =>
        simp only [hrec]
        intro he
        simp only [Option.some.injEq, Prod.mk.injEq] at he
        obtain ⟨rfl, rfl⟩ := he
        obtain ⟨hfree, hbefore, hnew, hother⟩ :=
          um_sockmap_ins_some sock addr rest p.1 p.2 (by
            rw [hrec])
        refine ⟨hfree, ?_, hnew, ?_⟩
        · intro j t hj ht
          match j, ht with
          | 0, ht =>
            injection ht with ht
            subst ht
            exact h
          | j + 1, ht =>
            exact hbefore j t (by omega) ht
        · intro j hj
          match j with
          | 0 => rfl
          | j + 1 => exact hother j (by omega)
    · intro he
      simp only [Option.some.injEq, Prod.mk.injEq] at he
      obtain ⟨rfl, rfl⟩ := he
      refine ⟨⟨s, rfl, by simpa using h⟩, ?_, rfl, ?_⟩
      · intro j t hj
        omega
      · intro j hj
        match j with
        | 0 => omega
        | j + 1 => rfl

theorem ins_skips_full (sock : Int) (addr : sockaddr_in) :
    ∀ (full : List um_sockmap) (k : Nat),
      (∀ s ∈ full, s.in_use = true) →
      um_sockmap_ins sock addr (full ++ List.replicate (k + 1) um_sockmap.empty) =
        some (full.length,
          full ++ mkSlot (sock, addr) :: List.replicate k um_sockmap.empty)
  | [], k => by
    intro
    simp [um_sockmap_ins, List.replicate_succ, um_sockmap.empty, mkSlot]
  | s :: full, k => by
    intro h
    have hs := h s (by simp)
    have hrec := ins_skips_full sock addr full k
      (fun t ht => h t (List.mem_cons_of_mem s ht))
    rw [List.cons_append]
    simp only [um_sockmap_ins, if_pos hs]
    rw [hrec]
    simp

theorem insertAll_fill :
    ∀ (ps : List (Int × sockaddr_in)) (full : List um_sockmap) (k : Nat),
      (∀ s ∈ full, s.in_use = true) →
      (insertAll ps (full ++ List.replicate k um_sockmap.empty)).1 =
        ((List.range (min ps.length k)).map (fun j => some (full.length + j))) ++
          List.replicate (ps.length - k) none ∧
      (insertAll ps (full ++ List.replicate k um_sockmap.empty)).2 =
        full ++ (ps.take k).map mkSlot ++
          List.replicate (k - ps.length) um_sockmap.empty
  | [], full, k => by
    intro h
    simp [insertAll]
  | (sock, addr) :: ps, full, 0 => by
    intro h
    have hnone : um_sockmap_ins sock addr full = none :=
      (um_sockmap_ins_none sock addr full).mpr h
    have ih := insertAll_fill ps full 0 h
    simp only [List.replicate_zero, List.append_nil] at ih ⊢
    simp only [insertAll, hnone]
    constructor
    · rw [ih.1]
      simp [List.replicate_succ]
    · rw [ih.2]
      simp
  | (sock, addr) :: ps, full, k + 1 => by
    intro h
    have hins := ins_skips_full sock addr full k h
    have hfull2 : ∀ s ∈ full ++ [mkSlot (sock, addr)], s.in_use = true := by
      intro s hs
      rcases List.mem_append.mp hs with h1 | h2
      · exact h s h1
      · simp only [List.mem_singleton] at h2
        subst h2
        rfl
    have ih := insertAll_fill ps (full ++ [mkSlot (sock, addr)]) k hfull2
    rw [List.append_assoc, List.singleton_append] at ih
    simp only [insertAll, hins]
    constructor
    · rw [ih.1]
      simp only [List.length_append, List.length_cons, List.length_nil,
        Nat.succ_sub_succ, Nat.succ_min_succ, List.range_succ_eq_map,
        List.map_cons, List.map_map, Nat.add_zero, List.cons_append]
      congr 1
      congr 1
      apply List.map_congr_left
      intro j hj
      simp only [Function.comp_apply, Option.some.injEq]
      omega
    · rw [ih.2]
      simp [List.append_assoc]

/-- C4: um_sockmap_ins fails iff every slot is in use (leaving the
table unchanged); on success it fills the first free slot in table
order with the socket, the address and the sentinel last_use, leaving
every other slot unchanged; consequently inserting capacity+1 sessions
from capacity+1 distinct addresses into an empty table accepts the
first capacity (at indices 0..capacity-1) and rejects exactly the
last, leaving the first capacity active. -/
theorem C4_insert (sock : Int) (addr : sockaddr_in) (m : List um_sockmap) :
    (um_sockmap_ins sock addr m = none ↔ ∀ s ∈ m, s.in_use = true) ∧
    (∀ i m2, um_sockmap_ins sock addr m = some (i, m2) →
      (∃ s, m.get? i = some s ∧ s.in_use = false) ∧
      (∀ j t, j < i → m.get? j = some t → t.in_use = true) ∧
      m2.get? i = some ⟨true, sock, TIME_INVALID, addr⟩ ∧
      (∀ j, j ≠ i → m2.get? j = m.get? j)) ∧
    (∀ (n : Nat) (ps : List (Int × sockaddr_in)),
      ps.length = n + 1 → ps.Pairwise (fun p q => p.2 ≠ q.2) →
      (insertAll ps (List.replicate n um_sockmap.empty)).1 =
        (List.range n).map some ++ [none] ∧
      (insertAll ps (List.replicate n um_sockmap.empty)).2 =
        (ps.take n).map mkSlot) := by
  refine ⟨um_sockmap_ins_none sock addr m,
    fun i m2 => um_sockmap_ins_some sock addr m i m2, ?_⟩
  intro n ps hlen _
  have hfill := insertAll_fill ps [] n (by simp)
  simp only [List.nil_append, List.length_nil, Nat.zero_add] at hfill
  rw [hlen] at hfill
  constructor
  · rw [hfill.1]
    have h1 : min (n + 1) n = n := by omega
    have h2 : n + 1 - n = 1 := by omega
    rw [h1, h2]
    simp
  · rw [hfill.2]
    have h3 : n - (n + 1) = 0 := by omega
    rw [h3]
    simp

/-- Witness for C4: capacity 1, two distinct addresses. -/
theorem C4_insert_witness :
    (insertAll [(7, ⟨2, 80, 5⟩), (8, ⟨2, 80, 6⟩)]
        (List.replicate 1 um_sockmap.empty)).1 =
      (List.range 1).map some ++ [none] ∧
    (insertAll [(7, ⟨2, 80, 5⟩), (8, ⟨2, 80, 6⟩)]
        (List.replicate 1 um_sockmap.empty)).2 =
      ([((7 : Int), (⟨2, 80, 5⟩ : sockaddr_in)), (8, ⟨2, 80, 6⟩)].take 1).map
        mkSlot :=
  (C4_insert 0 ⟨0, 0, 0⟩ []).2.2 1 [(7, ⟨2, 80, 5⟩), (8, ⟨2, 80, 6⟩)]
    rfl (by decide)

theorem clean_go_map (timeout tv : Int) :
    ∀ (m : List um_sockmap) (as : Finset Int),
      (um_sockmap_clean_go timeout tv m as).2.1 =
        m.map (purge_mark timeout tv)
  | [], as => rfl
  | s :: rest, as => by
    simp only [um_sockmap_clean_go]
    split_ifs with h
    · simp [clean_go_map timeout tv rest (as.erase s.sock), purge_mark, h]
    · simp [clean_go_map timeout tv rest as, purge_mark, h]

theorem clean_go_purged (timeout tv : Int) :
    ∀ (m : List um_sockmap) (as : Finset Int),
      (um_sockmap_clean_go timeout tv m as).1 =
        m.any (fun s => decide (purgeable timeout tv s))
  | [], as => rfl
  | s :: rest, as => by
    simp only [um_sockmap_clean_go]
    split_ifs with h
    · simp [h]
    · simp [clean_go_purged timeout tv rest as, h]

theorem clean_go_closed (timeout tv : Int) :
    ∀ (m : List um_sockmap) (as : Finset Int),
      (um_sockmap_clean_go timeout tv m as).2.2.2 =
        (m.filter (fun s => decide (purgeable timeout tv s))).map (·.sock)
  | [], as => rfl
  | s :: rest, as => by
    simp only [um_sockmap_clean_go]
    split_ifs with h
    · simp [clean_go_closed timeout tv rest (as.erase s.sock), h]
    · simp [clean_go_closed timeout tv rest as, h]

theorem clean_go_active (timeout tv : Int) :
    ∀ (m : List um_sockmap) (as : Finset Int),
      (um_sockmap_clean_go timeout tv m as).2.2.1 =
        ((m.filter (fun s => decide (purgeable timeout tv s))).map
          (·.sock)).foldl Finset.erase as
  | [], as => rfl
  | s :: rest, as => by
    simp only [um_sockmap_clean_go]
    split_ifs with h
    · simp [clean_go_active timeout tv rest (as.erase s.sock), h]
    · simp [clean_go_active timeout tv rest as, h]

theorem not_purgeable_purge_mark (timeout tv : Int) (s : um_sockmap) :
    ¬ purgeable timeout tv (purge_mark timeout tv s) := by
  unfold purge_mark
  split_ifs with h
  · intro hc
    exact absurd hc.1 (by simp)
  · exact h

/-- C1: with a configured idle timeout of 0 the reap is a no-op that
returns false; with a positive timeout it frees exactly the active
slots whose last_use is the sentinel or satisfies
now - last_use >= timeout (marking them not in use and writing nothing
else, so all other slots are unchanged), closes and deregisters each
such slot's socket, and returns true iff at least one slot was freed;
in particular an active slot whose last_use is still the sentinel is
always freed, however large the timeout. -/
theorem C1_reap (timeout time_val : Int) (m : List um_sockmap) (as : Finset Int) :
    (timeout = 0 →
      um_sockmap_clean timeout time_val m as = ⟨false, m, as, []⟩) ∧
    (0 < timeout →
      (um_sockmap_clean timeout time_val m as).map =
        m.map (purge_mark timeout time_val) ∧
      (um_sockmap_clean timeout time_val m as).closed =
        (m.filter (fun s => decide (purgeable timeout time_val s))).map
          (·.sock) ∧
      (um_sockmap_clean timeout time_val m as).active_set =
        ((m.filter (fun s => decide (purgeable timeout time_val s))).map
          (·.sock)).foldl Finset.erase as ∧
      ((um_sockmap_clean timeout time_val m as).purged = true ↔
        ∃ s ∈ m, purgeable timeout time_val s) ∧
      (∀ i s, m.get? i = some s → s.in_use = true → s.last_use = TIME_INVALID →
        (um_sockmap_clean timeout time_val m as).map.get? i =
          some { s with in_use := false })) := by
  constructor
  · intro h
    simp [um_sockmap_clean, h]
  · intro h
    have hnot : ¬ timeout ≤ 0 := by omega
    simp only [um_sockmap_clean, if_neg hnot]
    refine ⟨clean_go_map timeout time_val m as,
      clean_go_closed timeout time_val m as,
      clean_go_active timeout time_val m as, ?_, ?_⟩
    · rw [clean_go_purged]
      simp [List.any_eq_true]
    · intro i s hi hu hl
      rw [clean_go_map, List.get?_map, hi]
      simp only [Option.map_some']
      unfold purge_mark
      rw [if_pos ⟨hu, Or.inl hl⟩]

/-- Witness for C1: the zero-timeout branch at one concrete state, and
the purge of a sentinel-last_use session at a large concrete timeout. -/
theorem C1_reap_witness :
    um_sockmap_clean 0 100
        [(⟨true, 3, TIME_INVALID, ⟨2, 80, 5⟩⟩ : um_sockmap)] {3} =
      ⟨false, [⟨true, 3, TIME_INVALID, ⟨2, 80, 5⟩⟩], {3}, []⟩ ∧
    (um_sockmap_clean 1000000 100
        [(⟨true, 3, TIME_INVALID, ⟨2, 80, 5⟩⟩ : um_sockmap)] {3}).map.get? 0 =
      some ⟨false, 3, TIME_INVALID, ⟨2, 80, 5⟩⟩ :=
  ⟨(C1_reap 0 100 _ _).1 rfl,
   ((C1_reap 1000000 100 [⟨true, 3, TIME_INVALID, ⟨2, 80, 5⟩⟩] {3}).2
      (by norm_num)).2.2.2.2 0 _ rfl rfl rfl⟩

/-- C7: reaping is idempotent at a fixed current time: a second reap
immediately after a first one, at the same time and with no table
mutation in between, purges nothing, changes nothing, and returns
false. -/
theorem C7_reap_idempotent (timeout tv : Int) (m : List um_sockmap)
    (as : Finset Int) :
    (um_sockmap_clean timeout tv (um_sockmap_clean timeout tv m as).map
        (um_sockmap_clean timeout tv m as).active_set).purged = false ∧
    (um_sockmap_clean timeout tv (um_sockmap_clean timeout tv m as).map
        (um_sockmap_clean timeout tv m as).active_set).map =
      (um_sockmap_clean timeout tv m as).map ∧
    (um_sockmap_clean timeout tv (um_sockmap_clean timeout tv m as).map
        (um_sockmap_clean timeout tv m as).active_set).active_set =
      (um_sockmap_clean timeout tv m as).active_set ∧
    (um_sockmap_clean timeout tv (um_sockmap_clean timeout tv m as).map
        (um_sockmap_clean timeout tv m as).active_set).closed = [] := by
  by_cases h : timeout ≤ 0
  · simp [um_sockmap_clean, h]
  · simp only [um_sockmap_clean, if_neg h, clean_go_map]
    have hnof : ∀ a ∈ m.map (purge_mark timeout tv), ¬ purgeable timeout tv a := by
      intro a ha
      obtain ⟨s, hsm, rfl⟩ := List.mem_map.mp ha
      exact not_purgeable_purge_mark timeout tv s
    have hfilter : (m.map (purge_mark timeout tv)).filter
        (fun s => decide (purgeable timeout tv s)) = [] := by
      rw [List.filter_eq_nil_iff]
      intro a ha
      simpa using hnof a ha
    refine ⟨?_, ?_, ?_, ?_⟩
    · rw [clean_go_purged, List.any_eq_false]
      intro a ha
      simpa using hnof a ha
    · calc (m.map (purge_mark timeout tv)).map (purge_mark timeout tv)
          = (m.map (purge_mark timeout tv)).map id := by
            apply List.map_congr_left
            intro a ha
            unfold purge_mark
            rw [if_neg (hnof a ha)]
            rfl
        _ = m.map (purge_mark timeout tv) := List.map_id _
    · rw [clean_go_active, hfilter]
      rfl
    · rw [clean_go_closed, hfilter]
      rfl

theorem key_le_of_same_key {a' a : um_sockmap} (h : same_key a' a) :
    key_le a' a :=
  ⟨fun hu => h.1 ▸ hu, h.2.1, h.2.2⟩

theorem slots_ok_of_key_le {a' a b' b : um_sockmap}
    (ha : key_le a' a) (hb : key_le b' b) (h : slots_ok a b) :
    slots_ok a' b' := by
  intro hu1 hu2
  obtain ⟨hf, hs⟩ := h (ha.1 hu1) (hb.1 hu2)
  exact ⟨by rw [ha.2.2, hb.2.2]; exact hf, by rw [ha.2.1, hb.2.1]; exact hs⟩

theorem key_le_purge_mark (timeout tv : Int) (s : um_sockmap) :
    key_le (purge_mark timeout tv s) s := by
  unfold purge_mark
  split_ifs with h
  · exact ⟨fun hc => absurd hc (by simp), rfl, rfl⟩
  · exact ⟨fun hu => hu, rfl, rfl⟩

theorem SessInv_map_key_le {m : List um_sockmap} {f : um_sockmap → um_sockmap}
    (hf : ∀ s, key_le (f s) s) (h : SessInv m) : SessInv (m.map f) := by
  unfold SessInv at h ⊢
  exact h.map f (fun a b hab => slots_ok_of_key_le (hf a) (hf b) hab)

theorem SessInv_clean (timeout tv : Int) (m : List um_sockmap) (as : Finset Int)
    (h : SessInv m) : SessInv (um_sockmap_clean timeout tv m as).map := by
  unfold um_sockmap_clean
  split_ifs with ht
  · exact h
  · show SessInv (um_sockmap_clean_go timeout tv m as).2.1
    rw [clean_go_map]
    exact SessInv_map_key_le (key_le_purge_mark timeout tv) h

theorem mem_setSlot {f : um_sockmap → um_sockmap} :
    ∀ {m : List um_sockmap} {idx : Nat} {t : um_sockmap},
      t ∈ setSlot f idx m → t ∈ m ∨ ∃ u ∈ m, t = f u := by
  intro m
  induction m with
  | nil => intro idx t ht; simp [setSlot] at ht
  | cons s rest ih =>
    intro idx t ht
    match idx with
    | 0 =>
      rcases List.mem_cons.mp ht with h1 | h2
      · exact Or.inr ⟨s, by simp, h1⟩
      · exact Or.inl (List.mem_cons_of_mem s h2)
    | idx + 1 =>
      rcases List.mem_cons.mp ht with h1 | h2
      · exact Or.inl (h1 ▸ List.mem_cons_self s rest)
      · rcases ih h2 with h3 | ⟨u, hu, he⟩
        · exact Or.inl (List.mem_cons_of_mem s h3)
        · exact Or.inr ⟨u, List.mem_cons_of_mem s hu, he⟩

theorem SessInv_setSlot {f : um_sockmap → um_sockmap}
    (hf : ∀ s, same_key (f s) s) :
    ∀ (m : List um_sockmap) (idx : Nat), SessInv m → SessInv (setSlot f idx m)
  | [], idx, h => by
    cases idx <;> simpa [setSlot] using h
  | s :: rest, 0, h => by
    unfold SessInv at h ⊢
    simp only [setSlot]
    rw [List.pairwise_cons] at h ⊢
    refine ⟨?_, h.2⟩
    intro t ht
    exact slots_ok_of_key_le (key_le_of_same_key (hf s))
      ⟨fun hu => hu, rfl, rfl⟩ (h.1 t ht)
  | s :: rest, idx + 1, h => by
    unfold SessInv at h ⊢
    simp only [setSlot]
    rw [List.pairwise_cons] at h ⊢
    refine ⟨?_, SessInv_setSlot hf rest idx h.2⟩
    intro t ht
    rcases mem_setSlot ht with h1 | ⟨u, hu, he⟩
    · exact h.1 t h1
    · subst he
      exact slots_ok_of_key_le ⟨fun hu => hu, rfl, rfl⟩
        (key_le_of_same_key (hf u)) (h.1 u hu)

theorem SessInv_touch (tv : Int) (idx : Nat) (m : List um_sockmap)
    (h : SessInv m) : SessInv (UPDATE_LAST_USE tv idx m) := by
  unfold UPDATE_LAST_USE
  split_ifs with ht
  · exact SessInv_setSlot (f := fun s => { s with last_use := tv })
      (fun s => ⟨rfl, rfl, rfl⟩) m idx h
  · exact h

theorem mem_drain_go (tf : um_mode → List Nat → List Nat) (mode : um_mode)
    (ready : Int → Bool) (rdata : Nat → Option (List Nat)) (tDrain : Nat → Int) :
    ∀ (i : Nat) (m : List um_sockmap) (t' : um_sockmap),
      t' ∈ (drain_go tf mode ready rdata tDrain i m).1 →
      ∃ t ∈ m, same_key t' t
  | i, [], t' => by simp [drain_go]
  | i, s :: rest, t' => by
    have ih := fun u hu =>
      mem_drain_go tf mode ready rdata tDrain (i + 1) rest u hu
    cases hr : rdata i with
    | some buf =>
      simp only [drain_go, hr]
      split_ifs with h htv <;>
      · intro ht
        rcases List.mem_cons.mp ht with h1 | h2
        · refine ⟨s, by simp, ?_⟩
          rw [h1]
          exact ⟨rfl, rfl, rfl⟩
        · obtain ⟨t, htm, hk⟩ := ih _ h2
          exact ⟨t, List.mem_cons_of_mem s htm, hk⟩
    | none =>
      simp only [drain_go, hr]
      split_ifs with h <;>
      · intro ht
        rcases List.mem_cons.mp ht with h1 | h2
        · refine ⟨s, by simp, ?_⟩
          rw [h1]
          exact ⟨rfl, rfl, rfl⟩
        · obtain ⟨t, htm, hk⟩ := ih _ h2
          exact ⟨t, List.mem_cons_of_mem s htm, hk⟩

theorem SessInv_drain (tf : um_mode → List Nat → List Nat) (mode : um_mode)
    (ready : Int → Bool) (rdata : Nat → Option (List Nat)) (tDrain : Nat → Int) :
    ∀ (i : Nat) (m : List um_sockmap), SessInv m →
      SessInv (drain_go tf mode ready rdata tDrain i m).1
  | i, [], h => h
  | i, s :: rest, h => by
    unfold SessInv at h
    rw [List.pairwise_cons] at h
    have hrest := SessInv_drain tf mode ready rdata tDrain (i + 1) rest h.2
    have hhead : ∀ s' t', same_key s' s →
        t' ∈ (drain_go tf mode ready rdata tDrain (i + 1) rest).1 →
        slots_ok s' t' := by
      intro s' t' hk ht'
      obtain ⟨t, htm, hk'⟩ := mem_drain_go tf mode ready rdata tDrain (i + 1) rest t' ht'
      exact slots_ok_of_key_le (key_le_of_same_key hk)
        (key_le_of_same_key hk') (h.1 t htm)
    cases hr : rdata i with
    | some buf =>
      simp only [drain_go, hr]
      split_ifs with hc htv <;>
      · unfold SessInv
        rw [List.pairwise_cons]
        exact ⟨fun t' ht' => hhead _ t' ⟨rfl, rfl, rfl⟩ ht', hrest⟩
    | none =>
      simp only [drain_go, hr]
      split_ifs with hc <;>
      · unfold SessInv
        rw [List.pairwise_cons]
        exact ⟨fun t' ht' => hhead _ t' ⟨rfl, rfl, rfl⟩ ht', hrest⟩

theorem mem_ins (sock : Int) (addr : sockaddr_in) :
    ∀ (m : List um_sockmap) (i : Nat) (m2 : List um_sockmap),
      um_sockmap_ins sock addr m = some (i, m2) →
      ∀ t ∈ m2, t ∈ m ∨ t = ⟨true, sock, TIME_INVALID, addr⟩
  | [], i, m2 => by simp [um_sockmap_ins]
  | s :: rest, i, m2 => by
    simp only [um_sockmap_ins]
    split_ifs with h
    · cases hrec : um_sockmap_ins sock addr rest with
      | none => simp [hrec]
      | some p =>
        simp only [hrec, Option.some.injEq, Prod.mk.injEq]
        intro he
        obtain ⟨rfl, rfl⟩ := he
        intro t ht
        rcases List.mem_cons.mp ht with h1 | h2
        · exact Or.inl (h1 ▸ List.mem_cons_self s rest)
        · rcases mem_ins sock addr rest p.1 p.2 (by rw [hrec]) t h2 with h3 | h4
          · exact Or.inl (List.mem_cons_of_mem s h3)
          · exact Or.inr h4
    · intro he
      simp only [Option.some.injEq, Prod.mk.injEq] at he
      obtain ⟨rfl, rfl⟩ := he
      intro t ht
      rcases List.mem_cons.mp ht with h1 | h2
      · exact Or.inr h1
      · exact Or.inl (List.mem_cons_of_mem s h2)

theorem SessInv_ins (sock : Int) (addr : sockaddr_in) :
    ∀ (m : List um_sockmap) (i : Nat) (m2 : List um_sockmap),
      SessInv m →
      (∀ s ∈ m, s.in_use = true → ¬(sockaddr_in_cmp addr s.from_ = 0)) →
      (∀ s ∈ m, s.in_use = true → s.sock ≠ sock) →
      um_sockmap_ins sock addr m = some (i, m2) → SessInv m2
  | [], i, m2, hInv, hmiss, hfresh => by simp [um_sockmap_ins]
  | s :: rest, i, m2, hInv, hmiss, hfresh => by
    unfold SessInv at hInv
    rw [List.pairwise_cons] at hInv
    simp only [um_sockmap_ins]
    split_ifs with h
    · cases hrec : um_sockmap_ins sock addr rest with
      | none => simp [hrec]
      | some p =>
        simp only [hrec, Option.some.injEq, Prod.mk.injEq]
        intro he
        obtain ⟨rfl, rfl⟩ := he
        have hrest2 : SessInv p.2 :=
          SessInv_ins sock addr rest p.1 p.2 hInv.2
            (fun t ht hu => hmiss t (List.mem_cons_of_mem s ht) hu)
            (fun t ht hu => hfresh t (List.mem_cons_of_mem s ht) hu)
            (by rw [hrec])
        unfold SessInv
        rw [List.pairwise_cons]
        refine ⟨?_, hrest2⟩
        intro t ht
        rcases mem_ins sock addr rest p.1 p.2 (by rw [hrec]) t ht with h1 | h2
        · exact hInv.1 t h1
        · subst h2
          intro hu1 _
          constructor
          · intro hfe
            exact hmiss s (by simp) hu1 (by rw [hfe]; exact sockaddr_in_cmp_self addr)
          · exact hfresh s (by simp) hu1
    · intro he
      simp only [Option.some.injEq, Prod.mk.injEq] at he
      obtain ⟨rfl, rfl⟩ := he
      unfold SessInv
      rw [List.pairwise_cons]
      refine ⟨?_, hInv.2⟩
      intro t ht hu1 hu2
      constructor
      · intro hfe
        exact hmiss t (List.mem_cons_of_mem s ht) hu2
          (by rw [← hfe]; exact sockaddr_in_cmp_self addr)
      · exact fun hse => hfresh t (List.mem_cons_of_mem s ht) hu2 hse.symm

theorem clean_mem (timeout tv : Int) (m : List um_sockmap) (as : Finset Int) :
    ∀ s' ∈ (um_sockmap_clean timeout tv m as).map, ∃ s ∈ m, key_le s' s := by
  unfold um_sockmap_clean
  split_ifs with ht
  · exact fun s' hs' => ⟨s', hs', fun hu => hu, rfl, rfl⟩
  · show ∀ s' ∈ (um_sockmap_clean_go timeout tv m as).2.1, _
    rw [clean_go_map]
    intro s' hs'
    obtain ⟨s, hsm, rfl⟩ := List.mem_map.mp hs'
    exact ⟨s, hsm, key_le_purge_mark timeout tv s⟩

theorem SessInv_send_common (tf : um_mode → List Nat → List Nat)
    (mode : um_mode) (tTouch : Int) (st : MuxState) (tr : List LoopAct)
    (trigged : Bool) (idx : Nat) (buf : List Nat) (h : SessInv st.map) :
    SessInv (send_common tf mode tTouch st tr trigged idx buf).1.map := by
  unfold send_common
  cases hg : st.map.get? idx with
  | some s => exact SessInv_touch tTouch idx st.map h
  | none => exact h

theorem SessInv_dispatch (tf : um_mode → List Nat → List Nat) (mode : um_mode)
    (timeout tClean tTouch : Int) (recvRet : Option (List Nat × sockaddr_in))
    (newSock : Int) (st : MuxState)
    (hInv : SessInv st.map)
    (hfresh : ∀ s ∈ st.map, s.in_use = true → s.sock ≠ newSock) :
    SessInv (dispatch_listen tf mode timeout tClean tTouch recvRet newSock
      st).1.map := by
  cases recvRet with
  | none => exact hInv
  | some pr =>
    obtain ⟨buf, recv_addr⟩ := pr
    simp only [dispatch_listen]
    cases hlk : um_lookup recv_addr st.map with
    | some i => exact SessInv_send_common tf mode tTouch st [] false i buf hInv
    | none =>
      split_ifs with hns
      · exact hInv
      · have hInv1 : SessInv (um_sockmap_clean timeout tClean st.map
            st.active_set).map := SessInv_clean timeout tClean st.map
            st.active_set hInv
        have hmiss0 : ∀ s ∈ st.map, s.in_use = true →
            ¬(sockaddr_in_cmp recv_addr s.from_ = 0) := by
          have hn := (um_lookup_none recv_addr st.map).mp hlk
          intro s hs hu hc
          exact hn s hs ⟨hu, hc⟩
        have hmem := clean_mem timeout tClean st.map st.active_set
        cases hins : um_sockmap_ins newSock recv_addr
            (um_sockmap_clean timeout tClean st.map st.active_set).map with
        | none =>
          simp only [hins]
          exact hInv1
        | some p =>
          simp only [hins]
          have hInv2 : SessInv p.2 := by
            apply SessInv_ins newSock recv_addr _ p.1 p.2 hInv1
            · intro s' hs' hu hc
              obtain ⟨s, hsm, hk⟩ := hmem s' hs'
              exact hmiss0 s hsm (hk.1 hu) (by rw [← hk.2.2]; exact hc)
            · intro s' hs' hu
              obtain ⟨s, hsm, hk⟩ := hmem s' hs'
              rw [hk.2.1]
              exact hfresh s hsm (hk.1 hu)
            · rw [hins]
          exact SessInv_send_common tf mode tTouch _ _ true p.1 buf hInv2

theorem shutdown_map_eq :
    ∀ (m : List um_sockmap), (shutdown_cleanup m).1 =
      m.map (fun s => if s.in_use then { s with in_use := false } else s)
  | [] => rfl
  | s :: rest => by
    simp only [shutdown_cleanup]
    split_ifs with h <;> simp [shutdown_map_eq rest, h]

theorem shutdown_closed_eq :
    ∀ (m : List um_sockmap), (shutdown_cleanup m).2 = activeSocks m
  | [] => rfl
  | s :: rest => by
    simp only [shutdown_cleanup, activeSocks]
    split_ifs with h
    · simp only [List.filter_cons, h]
      simp [shutdown_closed_eq rest, activeSocks]
    · have hb : s.in_use = false := by simpa using h
      simp only [List.filter_cons, hb]
      simp [shutdown_closed_eq rest, activeSocks]

theorem SessInv_shutdown (m : List um_sockmap) (h : SessInv m) :
    SessInv (shutdown_cleanup m).1 := by
  rw [shutdown_map_eq]
  apply SessInv_map_key_le _ h
  intro s
  split_ifs with hu
  · exact ⟨fun hc => absurd hc (by simp), rfl, rfl⟩
  · exact ⟨fun hc => hc, rfl, rfl⟩

/-- C3: every event-loop step (listening-socket dispatch, session
drain, reap, and the shutdown sweep) preserves the session-table
invariant: any two in-use slots hold distinct client addresses and
distinct sockets (so no client address has more than one active
session). The `hfresh` hypothesis is the OS contract that a fd
returned by socket() differs from every fd already owned by an active
session. -/
theorem C3_invariant (tf : um_mode → List Nat → List Nat) (mode : um_mode)
    (timeout : Int) (inp : IterIn) (st : MuxState)
    (hInv : SessInv st.map)
    (hfresh : ∀ s ∈ st.map, s.in_use = true → s.sock ≠ inp.newSock) :
    SessInv (step_iter tf mode timeout inp st).1.map ∧
    SessInv (shutdown_cleanup st.map).1 := by
  refine ⟨?_, SessInv_shutdown st.map hInv⟩
  by_cases hsel : inp.selectRet ≤ 0
  · simp only [step_iter, if_pos hsel]
    exact hInv
  · by_cases hb : inp.bindReady = true
    · have hd := SessInv_dispatch tf mode timeout inp.tClean inp.tTouch
        inp.recvRet inp.newSock st hInv hfresh
      have hdr := SessInv_drain tf mode inp.ready inp.rdata inp.tDrain 0 _ hd
      simp only [step_iter, if_neg hsel, if_pos hb]
      split_ifs with htr
      · exact hdr
      · exact SessInv_clean timeout inp.tCleanEnd _ _ hdr
    · have hdr := SessInv_drain tf mode inp.ready inp.rdata inp.tDrain 0
        st.map hInv
      simp only [step_iter, if_neg hsel, if_neg hb]
      rw [if_neg (show ¬(false = true) by simp)]
      exact SessInv_clean timeout inp.tCleanEnd _ _ hdr

/-- Witness for C3 at a concrete state and iteration input. -/
theorem C3_invariant_witness :
    SessInv (step_iter (fun _ b => b) um_mode.UM_MODE_SERVER 10
      ⟨false, 1, true, some ([1, 2], ⟨2, 80, 5⟩), 7, 100, 100,
        fun _ => false, fun _ => none, fun _ => 100, 100⟩
      ⟨[⟨true, 4, 90, ⟨2, 80, 9⟩⟩], {3, 4}⟩).1.map ∧
    SessInv (shutdown_cleanup [(⟨true, 4, 90, ⟨2, 80, 9⟩⟩ : um_sockmap)]).1 :=
  C3_invariant (fun _ b => b) um_mode.UM_MODE_SERVER 10 _
    ⟨[⟨true, 4, 90, ⟨2, 80, 9⟩⟩], {3, 4}⟩ (by decide) (by decide)

/-- C9: when the termination flag is observed set at the top of an
iteration, the loop performs no further dispatch: it closes the socket
of every active session, marks every slot free, and start() returns 0
(clean shutdown). -/
theorem C9_shutdown (tf : um_mode → List Nat → List Nat) (mode : um_mode)
    (timeout : Int) (inp : IterIn) (rest : List IterIn) (st : MuxState)
    (hterm : inp.termFlag = true) :
    start_loop tf mode timeout (inp :: rest) st =
      (⟨(shutdown_cleanup st.map).1, st.active_set⟩, some 0,
        (shutdown_cleanup st.map).2.map LoopAct.close) ∧
    (∀ s ∈ (shutdown_cleanup st.map).1, s.in_use = false) ∧
    (shutdown_cleanup st.map).2 = activeSocks st.map := by
  refine ⟨by simp only [start_loop, if_pos hterm], ?_, shutdown_closed_eq st.map⟩
  rw [shutdown_map_eq]
  intro s' hs'
  obtain ⟨s, hsm, rfl⟩ := List.mem_map.mp hs'
  split_ifs with hu
  · rfl
  · simpa using hu

/-- Witness for C9 at a concrete loop state with the flag raised. -/
theorem C9_shutdown_witness :
    start_loop (fun _ b => b) um_mode.UM_MODE_SERVER 10
      [⟨true, 1, false, none, -1, 0, 0, fun _ => false, fun _ => none,
        fun _ => 0, 0⟩]
      ⟨[⟨true, 4, 90, ⟨2, 80, 9⟩⟩], {3, 4}⟩ =
      (⟨(shutdown_cleanup [⟨true, 4, 90, ⟨2, 80, 9⟩⟩]).1, {3, 4}⟩, some 0,
        (shutdown_cleanup [(⟨true, 4, 90, ⟨2, 80, 9⟩⟩ : um_sockmap)]).2.map
          LoopAct.close) ∧
    ∀ s ∈ (shutdown_cleanup [(⟨true, 4, 90, ⟨2, 80, 9⟩⟩ : um_sockmap)]).1,
      s.in_use = false :=
  ⟨(C9_shutdown (fun _ b => b) um_mode.UM_MODE_SERVER 10
      ⟨true, 1, false, none, -1, 0, 0, fun _ => false, fun _ => none,
        fun _ => 0, 0⟩
      [] ⟨[⟨true, 4, 90, ⟨2, 80, 9⟩⟩], {3, 4}⟩ rfl).1,
   (C9_shutdown (fun _ b => b) um_mode.UM_MODE_SERVER 10
      ⟨true, 1, false, none, -1, 0, 0, fun _ => false, fun _ => none,
        fun _ => 0, 0⟩
      [] ⟨[⟨true, 4, 90, ⟨2, 80, 9⟩⟩], {3, 4}⟩ rfl).2.1⟩

theorem C2_counterexample :
    um_lookup ⟨2, 80, 5⟩ ([] : List um_sockmap) = none ∧
    reap_precedes_create
      ((dispatch_listen (fun _ b => b) um_mode.UM_MODE_SERVER 10 100 100
        (some ([1], ⟨2, 80, 5⟩)) 5 ⟨[], ∅⟩).2.1) = false := by
  decide

/-- C2 (amended): in the event-loop iteration that handles a
listening-socket datagram from an address with no existing session,
when socket creation succeeds the reaper runs immediately after the
new upstream socket is created and before insertion into the session
table is attempted: the trace is sockCreate, then the reap with its
closes, and the insertion operates on the already-reaped table. -/
theorem C2_reap_before_insert (tf : um_mode → List Nat → List Nat)
    (mode : um_mode) (timeout tClean tTouch : Int) (buf : List Nat)
    (recv_addr : sockaddr_in) (newSock : Int) (st : MuxState)
    (hmiss : um_lookup recv_addr st.map = none) (hok : ¬ newSock < 0) :
    (∃ tr', (dispatch_listen tf mode timeout tClean tTouch
        (some (buf, recv_addr)) newSock st).2.1 =
      LoopAct.sockCreate newSock :: LoopAct.reap ::
        ((um_sockmap_clean timeout tClean st.map st.active_set).closed.map
          LoopAct.close ++ tr')) ∧
    (um_sockmap_ins newSock recv_addr
        (um_sockmap_clean timeout tClean st.map st.active_set).map = none →
      (dispatch_listen tf mode timeout tClean tTouch
        (some (buf, recv_addr)) newSock st).1.map =
        (um_sockmap_clean timeout tClean st.map st.active_set).map) ∧
    (∀ i m2, um_sockmap_ins newSock recv_addr
        (um_sockmap_clean timeout tClean st.map st.active_set).map =
          some (i, m2) →
      (dispatch_listen tf mode timeout tClean tTouch
        (some (buf, recv_addr)) newSock st).1.map =
        UPDATE_LAST_USE tTouch i m2) := by
  simp only [dispatch_listen, hmiss, if_neg hok]
  cases hins : um_sockmap_ins newSock recv_addr
      (um_sockmap_clean timeout tClean st.map st.active_set).map with
  | none =>
    refine ⟨⟨[], by simp⟩, fun _ => rfl, ?_⟩
    intro i m2 hc
    exact absurd hc (by simp)
  | some p =>
    obtain ⟨i0, m0⟩ := p
    obtain ⟨hfree, hbefore, hnew, hother⟩ :=
      um_sockmap_ins_some newSock recv_addr _ i0 m0 hins
    simp only [send_common]
    rw [hnew]
    refine ⟨⟨[LoopAct.fdSet newSock, LoopAct.connect newSock,
       LoopAct.send newSock (tf mode buf)], by simp⟩, ?_, ?_⟩
    · intro hc
      exact absurd hc (by simp)
    · intro i m2 hi
      simp only [Option.some.injEq, Prod.mk.injEq] at hi
      obtain ⟨rfl, rfl⟩ := hi
      rfl

/-- Witness for C2 (amended) at a concrete state with a free slot. -/
theorem C2_reap_before_insert_witness :
    ∃ tr', (dispatch_listen (fun _ b => b) um_mode.UM_MODE_SERVER 10 100 100
        (some ([1], ⟨2, 80, 5⟩)) 5 ⟨[um_sockmap.empty], ∅⟩).2.1 =
      LoopAct.sockCreate 5 :: LoopAct.reap ::
        ((um_sockmap_clean 10 100 [um_sockmap.empty] ∅).closed.map
          LoopAct.close ++ tr') :=
  (C2_reap_before_insert (fun _ b => b) um_mode.UM_MODE_SERVER 10 100 100 [1]
    ⟨2, 80, 5⟩ 5 ⟨[um_sockmap.empty], ∅⟩ (by decide) (by decide)).1

theorem dispatch_hit (tf : um_mode → List Nat → List Nat) (mode : um_mode)
    (timeout tClean tTouch : Int) (buf : List Nat) (recv_addr : sockaddr_in)
    (newSock : Int) (st : MuxState) (i : Nat) (s : um_sockmap)
    (hlk : um_lookup recv_addr st.map = some i)
    (hs : st.map.get? i = some s) :
    dispatch_listen tf mode timeout tClean tTouch (some (buf, recv_addr))
        newSock st =
      ({ st with map := UPDATE_LAST_USE tTouch i st.map },
        [LoopAct.send s.sock (tf mode buf)], false) := by
  simp only [dispatch_listen, hlk, send_common]
  rw [hs]
  simp

theorem drain_sendto (tf : um_mode → List Nat → List Nat) (mode : um_mode)
    (ready : Int → Bool) (rdata : Nat → Option (List Nat)) (tDrain : Nat → Int) :
    ∀ (i j : Nat) (m : List um_sockmap) (s : um_sockmap) (q : List Nat),
      m.get? j = some s → s.in_use = true → ready s.sock = true →
      rdata (i + j) = some q →
      LoopAct.sendto s.from_ (tf mode q) ∈
        (drain_go tf mode ready rdata tDrain i m).2
  | i, j, [], s, q => by simp
  | i, 0, t :: rest, s, q => by
    intro hg hu hr hq
    have ht : t = s := by injection hg
    subst ht
    have hq2 : rdata i = some q := hq
    simp only [drain_go, if_pos (And.intro hu hr), hq2]
    exact List.mem_cons_self _ _
  | i, j + 1, t :: rest, s, q => by
    intro hg hu hr hq
    have hq' : rdata (i + 1 + j) = some q := by
      have he : i + 1 + j = i + (j + 1) := by omega
      rw [he]
      exact hq
    have ih := drain_sendto tf mode ready rdata tDrain (i + 1) j rest s q hg
      hu hr hq'
    by_cases hc : t.in_use = true ∧ ready t.sock = true
    · cases hrd : rdata i with
      | some buf2 =>
        simp only [drain_go, if_pos hc, hrd]
        exact List.mem_cons_of_mem _ ih
      | none =>
        simp only [drain_go, if_pos hc, hrd]
        exact ih
    · simp only [drain_go, if_neg hc]
      exact ih

/-- A well-formed address is determined by its three components. -/
theorem sockaddr_in_eq_of_components {a b : sockaddr_in}
    (h1 : a.sin_family = b.sin_family) (h2 : a.sin_port = b.sin_port)
    (h3 : a.sin_addr = b.sin_addr) : a = b := by
  cases a
  cases b
  simp only at h1 h2 h3
  rw [h1, h2, h3]

theorem mem_activeSocks {fd : Int} {m : List um_sockmap} :
    fd ∈ activeSocks m ↔ ∃ s ∈ m, s.in_use = true ∧ s.sock = fd := by
  unfold activeSocks
  simp only [List.mem_map, List.mem_filter]
  constructor
  · rintro ⟨s, ⟨hm, hu⟩, hs⟩
    exact ⟨s, hm, hu, hs⟩
  · rintro ⟨s, hm, hu, hs⟩
    exact ⟨s, ⟨hm, hu⟩, hs⟩

theorem activeSocks_sub_of_key_le {m' m : List um_sockmap}
    (h : ∀ s' ∈ m', ∃ s ∈ m, key_le s' s) :
    ∀ fd ∈ activeSocks m', fd ∈ activeSocks m := by
  intro fd hfd
  obtain ⟨s', hs', hu', hsock⟩ := mem_activeSocks.mp hfd
  obtain ⟨s, hs, hk⟩ := h s' hs'
  exact mem_activeSocks.mpr ⟨s, hs, hk.1 hu', by rw [← hk.2.1]; exact hsock⟩

theorem clean_closed_sub (timeout tv : Int) (m : List um_sockmap)
    (as : Finset Int) :
    ∀ fd ∈ (um_sockmap_clean timeout tv m as).closed, fd ∈ activeSocks m := by
  unfold um_sockmap_clean
  split_ifs with ht
  · simp
  · show ∀ fd ∈ (um_sockmap_clean_go timeout tv m as).2.2.2, _
    rw [clean_go_closed]
    intro fd hfd
    simp only [List.mem_map, List.mem_filter] at hfd
    obtain ⟨s, ⟨hm, hp⟩, hs⟩ := hfd
    have hp' : purgeable timeout tv s := by simpa using hp
    exact mem_activeSocks.mpr ⟨s, hm, hp'.1, hs⟩

theorem mem_foldl_erase :
    ∀ (l : List Int) (as : Finset Int) (x : Int),
      x ∈ l.foldl Finset.erase as → x ∈ as
  | [], as, x => fun h => h
  | fd :: l, as, x => fun h =>
    Finset.mem_of_mem_erase (mem_foldl_erase l (as.erase fd) x h)

theorem clean_active_sub (timeout tv : Int) (m : List um_sockmap)
    (as : Finset Int) :
    ∀ x ∈ (um_sockmap_clean timeout tv m as).active_set, x ∈ as := by
  unfold um_sockmap_clean
  split_ifs with ht
  · exact fun x h => h
  · show ∀ x ∈ (um_sockmap_clean_go timeout tv m as).2.2.1, _
    rw [clean_go_active]
    exact fun x h => mem_foldl_erase _ as x h

theorem clean_map_socks_sub (timeout tv : Int) (m : List um_sockmap)
    (as : Finset Int) :
    ∀ fd ∈ activeSocks (um_sockmap_clean timeout tv m as).map,
      fd ∈ activeSocks m :=
  activeSocks_sub_of_key_le (clean_mem timeout tv m as)

theorem drain_socks_sub (tf : um_mode → List Nat → List Nat) (mode : um_mode)
    (ready : Int → Bool) (rdata : Nat → Option (List Nat)) (tDrain : Nat → Int)
    (i : Nat) (m : List um_sockmap) :
    ∀ fd ∈ activeSocks (drain_go tf mode ready rdata tDrain i m).1,
      fd ∈ activeSocks m :=
  activeSocks_sub_of_key_le (fun s' hs' => by
    obtain ⟨s, hm, hk⟩ := mem_drain_go tf mode ready rdata tDrain i m s' hs'
    exact ⟨s, hm, key_le_of_same_key hk⟩)

theorem touch_socks_sub (tv : Int) (idx : Nat) (m : List um_sockmap) :
    ∀ fd ∈ activeSocks (UPDATE_LAST_USE tv idx m), fd ∈ activeSocks m := by
  unfold UPDATE_LAST_USE
  split_ifs with ht
  · apply activeSocks_sub_of_key_le
    intro s' hs'
    rcases mem_setSlot hs' with h1 | ⟨u, hu, he⟩
    · exact ⟨s', h1, fun h => h, rfl, rfl⟩
    · exact ⟨u, hu, by rw [he]; exact ⟨fun h => h, rfl, rfl⟩⟩
  · exact fun fd h => h

theorem ins_socks_sub (sock : Int) (addr : sockaddr_in)
    (m : List um_sockmap) (i : Nat) (m2 : List um_sockmap)
    (hins : um_sockmap_ins sock addr m = some (i, m2)) :
    ∀ fd ∈ activeSocks m2, fd = sock ∨ fd ∈ activeSocks m := by
  intro fd hfd
  obtain ⟨s', hs', hu', hsock⟩ := mem_activeSocks.mp hfd
  rcases mem_ins sock addr m i m2 hins s' hs' with h1 | h2
  · exact Or.inr (mem_activeSocks.mpr ⟨s', h1, hu', hsock⟩)
  · subst h2
    exact Or.inl hsock.symm

theorem drain_trace_sendto (tf : um_mode → List Nat → List Nat)
    (mode : um_mode) (ready : Int → Bool) (rdata : Nat → Option (List Nat))
    (tDrain : Nat → Int) :
    ∀ (i : Nat) (m : List um_sockmap) (a : LoopAct),
      a ∈ (drain_go tf mode ready rdata tDrain i m).2 →
      ∃ addr data, a = LoopAct.sendto addr data
  | i, [], a => by simp [drain_go]
  | i, s :: rest, a => by
    have ih := drain_trace_sendto tf mode ready rdata tDrain (i + 1) rest a
    by_cases hc : s.in_use = true ∧ ready s.sock = true
    · cases hrd : rdata i with
      | some buf =>
        simp only [drain_go, if_pos hc, hrd]
        intro ha
        rcases List.mem_cons.mp ha with h1 | h2
        · exact ⟨s.from_, tf mode buf, h1⟩
        · exact ih h2
      | none =>
        simp only [drain_go, if_pos hc, hrd]
        exact ih
    · simp only [drain_go, if_neg hc]
      exact ih

theorem send_common_effects (tf : um_mode → List Nat → List Nat)
    (mode : um_mode) (tTouch : Int) (st : MuxState) (tr : List LoopAct)
    (trigged : Bool) (idx : Nat) (buf : List Nat) :
    (send_common tf mode tTouch st tr trigged idx buf).1.active_set =
      st.active_set ∧
    (∀ fd ∈ activeSocks (send_common tf mode tTouch st tr trigged idx
      buf).1.map, fd ∈ activeSocks st.map) ∧
    (∀ a ∈ (send_common tf mode tTouch st tr trigged idx buf).2.1,
      a ∈ tr ∨ ∃ f d, a = LoopAct.send f d) := by
  unfold send_common
  cases hg : st.map.get? idx with
  | some s =>
    refine ⟨rfl, touch_socks_sub tTouch idx st.map, ?_⟩
    intro a ha
    rcases List.mem_append.mp ha with h1 | h2
    · exact Or.inl h1
    · simp only [List.mem_singleton] at h2
      exact Or.inr ⟨s.sock, tf mode buf, h2⟩
  | none => exact ⟨rfl, fun fd h => h, fun a ha => Or.inl ha⟩

theorem dispatch_effects (tf : um_mode → List Nat → List Nat) (mode : um_mode)
    (timeout tClean tTouch : Int) (recvRet : Option (List Nat × sockaddr_in))
    (newSock : Int) (st : MuxState) :
    (∀ fd, LoopAct.close fd ∈ (dispatch_listen tf mode timeout tClean tTouch
        recvRet newSock st).2.1 → fd ∈ activeSocks st.map) ∧
    (∀ fd, fd ∈ activeSocks (dispatch_listen tf mode timeout tClean tTouch
        recvRet newSock st).1.map →
      fd = newSock ∨ fd ∈ activeSocks st.map) ∧
    (∀ fd, fd ∈ (dispatch_listen tf mode timeout tClean tTouch recvRet
        newSock st).1.active_set →
      fd = newSock ∨ fd ∈ st.active_set) := by
  cases recvRet with
  | none =>
    exact ⟨fun fd h => by simp [dispatch_listen] at h,
      fun fd h => Or.inr (by simpa [dispatch_listen] using h),
      fun fd h => Or.inr (by simpa [dispatch_listen] using h)⟩
  | some pr =>
    obtain ⟨buf, recv_addr⟩ := pr
    simp only [dispatch_listen]
    cases hlk : um_lookup recv_addr st.map with
    | some i =>
      obtain ⟨hset, hmap, htr⟩ :=
        send_common_effects tf mode tTouch st [] false i buf
      refine ⟨?_, fun fd h => Or.inr (hmap fd h), fun fd h => Or.inr ?_⟩
      · intro fd h
        rcases htr _ h with h1 | ⟨f, d, he⟩
        · simp at h1
        · exact absurd he (by simp)
      · rw [hset] at h
        exact h
    | none =>
      split_ifs with hns
      · exact ⟨fun fd h => by simp at h, fun fd h => Or.inr h,
          fun fd h => Or.inr h⟩
      · have hclc := clean_closed_sub timeout tClean st.map st.active_set
        have hclm := clean_map_socks_sub timeout tClean st.map st.active_set
        have hcla := clean_active_sub timeout tClean st.map st.active_set
        cases hins : um_sockmap_ins newSock recv_addr
            (um_sockmap_clean timeout tClean st.map st.active_set).map with
        | none =>
          refine ⟨?_, fun fd h => Or.inr (hclm fd h),
            fun fd h => Or.inr (hcla fd h)⟩
          intro fd h
          rcases List.mem_cons.mp h with h1 | h2
          · exact absurd h1 (by simp)
          rcases List.mem_cons.mp h2 with h3 | h4
          · exact absurd h3 (by simp)
          obtain ⟨c, hc, he⟩ := List.mem_map.mp h4
          injection he with he
          subst he
          exact hclc c hc
        | some p =>
          obtain ⟨hset, hmap, htr⟩ := send_common_effects tf mode tTouch
            ⟨p.2, insert newSock (um_sockmap_clean timeout tClean st.map
              st.active_set).active_set⟩
            (LoopAct.sockCreate newSock :: LoopAct.reap ::
              List.map LoopAct.close (um_sockmap_clean timeout tClean st.map
                st.active_set).closed ++
              [LoopAct.fdSet newSock, LoopAct.connect newSock]) true p.1 buf
          refine ⟨?_, ?_, ?_⟩
          · intro fd h
            rcases htr _ h with h1 | ⟨f, d, he⟩
            · rcases List.mem_cons.mp h1 with h2 | h2'
              · exact absurd h2 (by simp)
              rcases List.mem_cons.mp h2' with h3 | h4
              · exact absurd h3 (by simp)
              rcases List.mem_append.mp h4 with h5 | h6
              · obtain ⟨c, hc, he⟩ := List.mem_map.mp h5
                injection he with he
                subst he
                exact hclc c hc
              · rcases List.mem_cons.mp h6 with h7 | h8
                · exact absurd h7 (by simp)
                · simp at h8
            · exact absurd he (by simp)
          · intro fd h
            have h2 := hmap fd h
            rcases ins_socks_sub newSock recv_addr _ p.1 p.2
                (by rw [hins]) fd h2 with h3 | h4
            · exact Or.inl h3
            · exact Or.inr (hclm fd h4)
          · intro fd h
            rw [hset] at h
            rcases Finset.mem_insert.mp h with h1 | h2
            · exact Or.inl h1
            · exact Or.inr (hcla fd h2)

theorem step_effects (tf : um_mode → List Nat → List Nat) (mode : um_mode)
    (timeout : Int) (inp : IterIn) (st : MuxState) :
    (∀ fd, LoopAct.close fd ∈ (step_iter tf mode timeout inp st).2 →
      fd = inp.newSock ∨ fd ∈ activeSocks st.map) ∧
    (∀ fd, fd ∈ activeSocks (step_iter tf mode timeout inp st).1.map →
      fd = inp.newSock ∨ fd ∈ activeSocks st.map) ∧
    (∀ fd, fd ∈ (step_iter tf mode timeout inp st).1.active_set →
      fd = inp.newSock ∨ fd ∈ st.active_set) := by
  by_cases hsel : inp.selectRet ≤ 0
  · simp only [step_iter, if_pos hsel]
    exact ⟨fun fd h => by simp at h, fun fd h => Or.inr h,
      fun fd h => Or.inr h⟩
  · by_cases hb : inp.bindReady = true
    · obtain ⟨hd1, hd2, hd3⟩ := dispatch_effects tf mode timeout inp.tClean
        inp.tTouch inp.recvRet inp.newSock st
      have hdr := drain_socks_sub tf mode inp.ready inp.rdata inp.tDrain 0
        (dispatch_listen tf mode timeout inp.tClean inp.tTouch inp.recvRet
          inp.newSock st).1.map
      have hdrt := drain_trace_sendto tf mode inp.ready inp.rdata inp.tDrain 0
        (dispatch_listen tf mode timeout inp.tClean inp.tTouch inp.recvRet
          inp.newSock st).1.map
      simp only [step_iter, if_neg hsel, if_pos hb]
      split_ifs with htr
      · refine ⟨?_, ?_, ?_⟩
        · intro fd h
          rcases List.mem_append.mp h with h1 | h2
          · exact Or.inr (hd1 fd h1)
          · obtain ⟨addr, data, he⟩ := hdrt _ h2
            exact absurd he (by simp)
        · intro fd h
          rcases hd2 fd (hdr fd h) with h1 | h2
          · exact Or.inl h1
          · exact Or.inr h2
        · intro fd h
          rcases hd3 fd h with h1 | h2
          · exact Or.inl h1
          · exact Or.inr h2
      · refine ⟨?_, ?_, ?_⟩
        · intro fd h
          rcases List.mem_append.mp h with h1 | h2
          · rcases List.mem_append.mp h1 with h3 | h4
            · exact Or.inr (hd1 fd h3)
            · obtain ⟨addr, data, he⟩ := hdrt _ h4
              exact absurd he (by simp)
          · rcases List.mem_cons.mp h2 with h3 | h4
            · exact absurd h3 (by simp)
            · obtain ⟨c, hc, he⟩ := List.mem_map.mp h4
              injection he with he
              subst he
              have := clean_closed_sub timeout inp.tCleanEnd _ _ c hc
              rcases hd2 c (hdr c this) with h5 | h6
              · exact Or.inl h5
              · exact Or.inr h6
        · intro fd h
          have h1 := clean_map_socks_sub timeout inp.tCleanEnd _ _ fd h
          rcases hd2 fd (hdr fd h1) with h2 | h3
          · exact Or.inl h2
          · exact Or.inr h3
        · intro fd h
          have h1 := clean_active_sub timeout inp.tCleanEnd _ _ fd h
          rcases hd3 fd h1 with h2 | h3
          · exact Or.inl h2
          · exact Or.inr h3
    · have hdr := drain_socks_sub tf mode inp.ready inp.rdata inp.tDrain 0
        st.map
      have hdrt := drain_trace_sendto tf mode inp.ready inp.rdata inp.tDrain 0
        st.map
      simp only [step_iter, if_neg hsel, if_neg hb]
      rw [if_neg (show ¬(false = true) by simp)]
      refine ⟨?_, ?_, ?_⟩
      · intro fd h
        rcases List.mem_append.mp h with h1 | h2
        · rcases List.mem_append.mp h1 with h3 | h4
          · simp at h3
          · obtain ⟨addr, data, he⟩ := hdrt _ h4
            exact absurd he (by simp)
        · rcases List.mem_cons.mp h2 with h3 | h4
          · exact absurd h3 (by simp)
          · obtain ⟨c, hc, he⟩ := List.mem_map.mp h4
            injection he with he
            subst he
            exact Or.inr (hdr c (clean_closed_sub timeout inp.tCleanEnd _ _ c hc))
      · intro fd h
        exact Or.inr (hdr fd (clean_map_socks_sub timeout inp.tCleanEnd _ _ fd h))
      · intro fd h
        exact Or.inr (clean_active_sub timeout inp.tCleanEnd _ _ fd h)

theorem activeSocks_shutdown (m : List um_sockmap) :
    activeSocks (shutdown_cleanup m).1 = [] := by
  rw [shutdown_map_eq, List.eq_nil_iff_forall_not_mem]
  intro fd hc
  obtain ⟨s', hs', hu', _⟩ := mem_activeSocks.mp hc
  obtain ⟨s, _, rfl⟩ := List.mem_map.mp hs'
  by_cases hu : s.in_use = true
  · rw [if_pos hu] at hu'
    exact absurd hu' (by simp)
  · rw [if_neg hu] at hu'
    exact hu hu'

theorem start_loop_no_close (tf : um_mode → List Nat → List Nat)
    (mode : um_mode) (timeout : Int) :
    ∀ (ins : List IterIn) (st : MuxState) (fd : Int),
      fd ∉ activeSocks st.map → fd ∉ st.active_set →
      (∀ inp ∈ ins, inp.newSock ≠ fd) →
      LoopAct.close fd ∉ (start_loop tf mode timeout ins st).2.2 ∧
      fd ∉ activeSocks (start_loop tf mode timeout ins st).1.map ∧
      fd ∉ (start_loop tf mode timeout ins st).1.active_set
  | [], st, fd => fun h1 h2 _ => ⟨by simp [start_loop], h1, h2⟩
  | inp :: rest, st, fd => fun h1 h2 h3 => by
    by_cases hterm : inp.termFlag = true
    · simp only [start_loop, if_pos hterm]
      refine ⟨?_, ?_, h2⟩
      · intro hc
        obtain ⟨c, hcm, he⟩ := List.mem_map.mp hc
        injection he with he
        subst he
        rw [shutdown_closed_eq] at hcm
        exact h1 hcm
      · rw [activeSocks_shutdown]
        simp
    · simp only [start_loop, if_neg hterm]
      obtain ⟨he1, he2, he3⟩ := step_effects tf mode timeout inp st
      have hns : inp.newSock ≠ fd := h3 inp (by simp)
      have h1' : fd ∉ activeSocks (step_iter tf mode timeout inp st).1.map :=
        fun hc => ((he2 fd hc).elim (fun a => hns a.symm) h1)
      have h2' : fd ∉ (step_iter tf mode timeout inp st).1.active_set :=
        fun hc => ((he3 fd hc).elim (fun a => hns a.symm) h2)
      obtain ⟨ih1, ih2, ih3⟩ := start_loop_no_close tf mode timeout rest
        (step_iter tf mode timeout inp st).1 fd h1' h2'
        (fun i hi => h3 i (List.mem_cons_of_mem inp hi))
      refine ⟨?_, ih2, ih3⟩
      intro hc
      rcases List.mem_append.mp hc with hA | hB
      · exact ((he1 fd hA).elim (fun a => hns a.symm) h1)
      · exact ih1 hB

/-- C10: when a datagram arrives from a new client address, the fresh
upstream socket is created, and the insertion then fails because the
(just reaped) table is still full, the new socket handle is neither
closed nor registered nor stored anywhere: the dispatch trace creates
it but never closes it and never FD_SETs it, it is absent from the
resulting table and readiness set, and no later iteration (nor the
shutdown sweep) ever closes or references it, since the OS cannot hand
the still-open descriptor out again. -/
theorem C10_capacity_leak (tf : um_mode → List Nat → List Nat)
    (mode : um_mode) (timeout tClean tTouch : Int) (buf : List Nat)
    (recv_addr : sockaddr_in) (newSock : Int) (st : MuxState)
    (hmiss : um_lookup recv_addr st.map = none)
    (hok : ¬ newSock < 0)
    (hfull : um_sockmap_ins newSock recv_addr
      (um_sockmap_clean timeout tClean st.map st.active_set).map = none)
    (hfm : newSock ∉ activeSocks st.map)
    (hfs : newSock ∉ st.active_set) :
    LoopAct.sockCreate newSock ∈ (dispatch_listen tf mode timeout tClean
      tTouch (some (buf, recv_addr)) newSock st).2.1 ∧
    LoopAct.close newSock ∉ (dispatch_listen tf mode timeout tClean
      tTouch (some (buf, recv_addr)) newSock st).2.1 ∧
    LoopAct.fdSet newSock ∉ (dispatch_listen tf mode timeout tClean
      tTouch (some (buf, recv_addr)) newSock st).2.1 ∧
    newSock ∉ activeSocks (dispatch_listen tf mode timeout tClean
      tTouch (some (buf, recv_addr)) newSock st).1.map ∧
    newSock ∉ (dispatch_listen tf mode timeout tClean
      tTouch (some (buf, recv_addr)) newSock st).1.active_set ∧
    (∀ (ins : List IterIn) (st' : MuxState),
      newSock ∉ activeSocks st'.map → newSock ∉ st'.active_set →
      (∀ inp ∈ ins, inp.newSock ≠ newSock) →
      LoopAct.close newSock ∉ (start_loop tf mode timeout ins st').2.2 ∧
      newSock ∉ activeSocks (start_loop tf mode timeout ins st').1.map) := by
  have hclc := clean_closed_sub timeout tClean st.map st.active_set
  have hclm := clean_map_socks_sub timeout tClean st.map st.active_set
  have hcla := clean_active_sub timeout tClean st.map st.active_set
  simp only [dispatch_listen, hmiss, if_neg hok, hfull]
  refine ⟨List.mem_cons_self _ _, ?_, ?_, ?_, ?_, ?_⟩
  · intro hc
    rcases List.mem_cons.mp hc with h1 | h2
    · exact absurd h1 (by simp)
    rcases List.mem_cons.mp h2 with h3 | h4
    · exact absurd h3 (by simp)
    obtain ⟨c, hcm, he⟩ := List.mem_map.mp h4
    injection he with he
    subst he
    exact hfm (hclc c hcm)
  · intro hc
    rcases List.mem_cons.mp hc with h1 | h2
    · exact absurd h1 (by simp)
    rcases List.mem_cons.mp h2 with h3 | h4
    · exact absurd h3 (by simp)
    obtain ⟨c, hcm, he⟩ := List.mem_map.mp h4
    exact absurd he.symm (by simp)
  · exact fun hc => hfm (hclm newSock hc)
  · exact fun hc => hfs (hcla newSock hc)
  · intro ins st' h1 h2 h3
    obtain ⟨g1, g2, g3⟩ := start_loop_no_close tf mode timeout ins st'
      newSock h1 h2 h3
    exact ⟨g1, g2⟩

/-- Witness for C10 at a concrete full table (capacity 1). -/
theorem C10_capacity_leak_witness :
    LoopAct.sockCreate 5 ∈ (dispatch_listen (fun _ b => b)
      um_mode.UM_MODE_SERVER 10 91 91 (some ([1], ⟨2, 80, 5⟩)) 5
      ⟨[⟨true, 3, 90, ⟨2, 80, 9⟩⟩], {3}⟩).2.1 ∧
    LoopAct.close 5 ∉ (dispatch_listen (fun _ b => b)
      um_mode.UM_MODE_SERVER 10 91 91 (some ([1], ⟨2, 80, 5⟩)) 5
      ⟨[⟨true, 3, 90, ⟨2, 80, 9⟩⟩], {3}⟩).2.1 :=
  ⟨(C10_capacity_leak (fun _ b => b) um_mode.UM_MODE_SERVER 10 91 91 [1]
      ⟨2, 80, 5⟩ 5 ⟨[⟨true, 3, 90, ⟨2, 80, 9⟩⟩], {3}⟩
      (by decide) (by decide) (by decide) (by decide) (by decide)).1,
   (C10_capacity_leak (fun _ b => b) um_mode.UM_MODE_SERVER 10 91 91 [1]
      ⟨2, 80, 5⟩ 5 ⟨[⟨true, 3, 90, ⟨2, 80, 9⟩⟩], {3}⟩
      (by decide) (by decide) (by decide) (by decide) (by decide)).2.1⟩

/-- C6: assuming the Transform Gateway is exactly reversible
(transforming under one mode and then under the complementary mode
reproduces the original bytes), a datagram relayed client-to-remote
and its reply relayed remote-to-client are delivered with content
equal to the original bytes once both transforms have been applied:
the client-mode relay forwards the transformed payload upstream, the
server-mode relay then delivers exactly the original bytes to the
remote, and the reply payload likewise reaches the client unchanged. -/
theorem C6_roundtrip (tf : um_mode → List Nat → List Nat)
    (hfwd : ∀ b, tf um_mode.UM_MODE_SERVER (tf um_mode.UM_MODE_CLIENT b) = b)
    (hrev : ∀ b, tf um_mode.UM_MODE_CLIENT (tf um_mode.UM_MODE_SERVER b) = b)
    (timeoutC tCleanC tTouchC timeoutS tCleanS tTouchS : Int)
    (nsC nsS : Int)
    (stC : MuxState) (i : Nat) (sC : um_sockmap) (clientAddr : sockaddr_in)
    (hCl : um_lookup clientAddr stC.map = some i)
    (hCs : stC.map.get? i = some sC)
    (stS : MuxState) (j : Nat) (sS : um_sockmap) (relayAddr : sockaddr_in)
    (hSl : um_lookup relayAddr stS.map = some j)
    (hSs : stS.map.get? j = some sS)
    (p q : List Nat)
    (readyS readyC : Int → Bool) (rdataS rdataC : Nat → Option (List Nat))
    (tDrS tDrC : Nat → Int)
    (hwfC : clientAddr.wf) (hwfCs : sC.from_.wf)
    (hreadyS : readyS sS.sock = true) (hrdataS : rdataS j = some q)
    (hreadyC : readyC sC.sock = true)
    (hrdataC : rdataC i = some (tf um_mode.UM_MODE_SERVER q)) :
    (dispatch_listen tf um_mode.UM_MODE_CLIENT timeoutC tCleanC tTouchC
      (some (p, clientAddr)) nsC stC).2.1 =
      [LoopAct.send sC.sock (tf um_mode.UM_MODE_CLIENT p)] ∧
    (dispatch_listen tf um_mode.UM_MODE_SERVER timeoutS tCleanS tTouchS
      (some (tf um_mode.UM_MODE_CLIENT p, relayAddr)) nsS stS).2.1 =
      [LoopAct.send sS.sock p] ∧
    LoopAct.sendto sS.from_ (tf um_mode.UM_MODE_SERVER q) ∈
      (drain_go tf um_mode.UM_MODE_SERVER readyS rdataS tDrS 0 stS.map).2 ∧
    LoopAct.sendto clientAddr q ∈
      (drain_go tf um_mode.UM_MODE_CLIENT readyC rdataC tDrC 0 stC.map).2 := by
  have hCu : sC.in_use = true := by
    obtain ⟨s, hs, hu, _, _⟩ := um_lookup_some clientAddr stC.map i hCl
    rw [hCs] at hs
    injection hs with hs
    rw [hs]
    exact hu
  have hCc : sockaddr_in_cmp clientAddr sC.from_ = 0 := by
    obtain ⟨s, hs, _, hc, _⟩ := um_lookup_some clientAddr stC.map i hCl
    rw [hCs] at hs
    injection hs with hs
    rw [hs]
    exact hc
  have hSu : sS.in_use = true := by
    obtain ⟨s, hs, hu, _, _⟩ := um_lookup_some relayAddr stS.map j hSl
    rw [hSs] at hs
    injection hs with hs
    rw [hs]
    exact hu
  have hCfrom : sC.from_ = clientAddr := by
    obtain ⟨h1, h2, h3⟩ :=
      (sockaddr_in_cmp_zero_iff clientAddr sC.from_ hwfC.2.2 hwfCs.2.2).mp hCc
    exact (sockaddr_in_eq_of_components h1 h2 h3).symm
  refine ⟨?_, ?_, ?_, ?_⟩
  · rw [dispatch_hit tf um_mode.UM_MODE_CLIENT timeoutC tCleanC tTouchC p
      clientAddr nsC stC i sC hCl hCs]
  · rw [dispatch_hit tf um_mode.UM_MODE_SERVER timeoutS tCleanS tTouchS
      (tf um_mode.UM_MODE_CLIENT p) relayAddr nsS stS j sS hSl hSs]
    rw [hfwd p]
  · exact drain_sendto tf um_mode.UM_MODE_SERVER readyS rdataS tDrS 0 j
      stS.map sS q hSs hSu hreadyS (by rw [Nat.zero_add]; exact hrdataS)
  · have hmem := drain_sendto tf um_mode.UM_MODE_CLIENT readyC rdataC tDrC 0 i
      stC.map sC (tf um_mode.UM_MODE_SERVER q) hCs hCu hreadyC
      (by rw [Nat.zero_add]; exact hrdataC)
    rw [hrev q, hCfrom] at hmem
    exact hmem

/-- Witness for C6: identity transform (trivially reversible), one
active session on each relay, concrete payloads. -/
theorem C6_roundtrip_witness :
    (dispatch_listen (fun _ b => b) um_mode.UM_MODE_CLIENT 10 100 100
      (some ([1, 2], ⟨2, 80, 5⟩)) (-1)
      ⟨[⟨true, 4, 90, ⟨2, 80, 5⟩⟩], {4}⟩).2.1 =
      [LoopAct.send 4 ((fun (_ : um_mode) (b : List Nat) => b)
        um_mode.UM_MODE_CLIENT [1, 2])] ∧
    LoopAct.sendto ⟨2, 80, 5⟩ [9] ∈
      (drain_go (fun _ b => b) um_mode.UM_MODE_CLIENT
        (fun fd => fd == 4) (fun k => if k = 0 then some [9] else none)
        (fun _ => 100) 0 [⟨true, 4, 90, ⟨2, 80, 5⟩⟩]).2 :=
  ⟨(C6_roundtrip (fun _ b => b) (fun b => rfl) (fun b => rfl)
      10 100 100 10 100 100 (-1) (-1)
      ⟨[⟨true, 4, 90, ⟨2, 80, 5⟩⟩], {4}⟩ 0 ⟨true, 4, 90, ⟨2, 80, 5⟩⟩
      ⟨2, 80, 5⟩ (by decide) (by decide)
      ⟨[⟨true, 7, 90, ⟨2, 81, 6⟩⟩], {7}⟩ 0 ⟨true, 7, 90, ⟨2, 81, 6⟩⟩
      ⟨2, 81, 6⟩ (by decide) (by decide)
      [1, 2] [9]
      (fun fd => fd == 7) (fun fd => fd == 4)
      (fun k => if k = 0 then some [9] else none)
      (fun k => if k = 0 then some [9] else none)
      (fun _ => 100) (fun _ => 100)
      (by decide) (by decide) (by decide) (by decide) (by decide)
      (by decide)).1,
   (C6_roundtrip (fun _ b => b) (fun b => rfl) (fun b => rfl)
      10 100 100 10 100 100 (-1) (-1)
      ⟨[⟨true, 4, 90, ⟨2, 80, 5⟩⟩], {4}⟩ 0 ⟨true, 4, 90, ⟨2, 80, 5⟩⟩
      ⟨2, 80, 5⟩ (by decide) (by decide)
      ⟨[⟨true, 7, 90, ⟨2, 81, 6⟩⟩], {7}⟩ 0 ⟨true, 7, 90, ⟨2, 81, 6⟩⟩
      ⟨2, 81, 6⟩ (by decide) (by decide)
      [1, 2] [9]
      (fun fd => fd == 7) (fun fd => fd == 4)
      (fun k => if k = 0 then some [9] else none)
      (fun k => if k = 0 then some [9] else none)
      (fun _ => 100) (fun _ => 100)
      (by decide) (by decide) (by decide) (by decide) (by decide)
      (by decide)).2.2.2⟩
